import Mathlib

/-!
# OpenPaint scene-graph and interaction core: a shallow embedding

This file embeds the vector scene-graph core of the OpenPaint repository in
Lean 4 and proves the testable properties of its design document against the
embedding.

Sources embedded:
* `src/types/vector.ts` — object model, layers, history operation types;
* `src/lib/vector/bounds.ts` — transforms, bounding boxes, intersection;
* `src/lib/vector/renderer.ts` (hit-test section) — hit-testing;
* `src/store/documentStore.ts` — document store, selection, history, undo/redo;
* `src/hooks/useSelectionTool.ts` — selection/resize gesture helpers.

Modelling conventions:
* JavaScript `number` is embedded as `ℚ`: all arithmetic in the embedded code
  is rational except trigonometry, so rational arithmetic is the exact-real
  semantics of the source.
* The rotation of a transform is given in degrees in the source and consumed
  only through `cos`/`sin` of that angle.  Since those are not rational in the
  angle, the embedding carries the cosine/sine pair (`rotCos`, `rotSin`) of
  the rotation as explicit fields alongside the degree value; `cos (-θ) = cos θ`
  and `sin (-θ) = -sin θ` are applied when the source calls `cos`/`sin` on the
  negated angle.
* `Math.hypot a b <= t` is embedded as `a^2 + b^2 ≤ t^2`, which is equivalent
  for the nonnegative tolerances the source uses.
* JavaScript `Array.splice` clamps out-of-range start positions; the helpers
  `spliceInsert`/`spliceRemove` reproduce that clamping with `take`/`drop`.
-/

/-- 2D point (`Point2D` in `src/types/vector.ts`). -/
structure Point2D where
  x : ℚ
  y : ℚ
  deriving DecidableEq, Repr

/-- Object transform (`Transform2D`).  `rotation` is the angle in degrees
(clockwise); `rotCos`/`rotSin` carry its cosine and sine, which is the only
way the source consumes the angle (see the module comment). -/
structure Transform2D where
  x : ℚ
  y : ℚ
  rotation : ℚ
  rotCos : ℚ
  rotSin : ℚ
  scaleX : ℚ
  scaleY : ℚ
  deriving DecidableEq, Repr

/-- Axis-aligned bounding box (`BoundingBox`). -/
structure BoundingBox where
  x : ℚ
  y : ℚ
  width : ℚ
  height : ℚ
  deriving DecidableEq, Repr

/-- `localToWorld` from `src/lib/vector/bounds.ts`: scale, then rotate
(skipped when the rotation is zero, as in the source), then translate. -/
def localToWorld (point : Point2D) (transform : Transform2D) : Point2D :=
  let x := point.x * transform.scaleX
  let y := point.y * transform.scaleY
  let (x, y) :=
    if transform.rotation ≠ 0 then
      (x * transform.rotCos - y * transform.rotSin,
       x * transform.rotSin + y * transform.rotCos)
    else (x, y)
  { x := x + transform.x, y := y + transform.y }

/-- `worldToLocal` from `src/lib/vector/bounds.ts`: inverse translate, inverse
rotate (cosine/sine of the negated angle), then divide by each scale axis only
when that axis is nonzero. -/
def worldToLocal (point : Point2D) (transform : Transform2D) : Point2D :=
  let x := point.x - transform.x
  let y := point.y - transform.y
  let (x, y) :=
    if transform.rotation ≠ 0 then
      -- cos(-θ) = rotCos, sin(-θ) = -rotSin
      (x * transform.rotCos - y * (-transform.rotSin),
       x * (-transform.rotSin) + y * transform.rotCos)
    else (x, y)
  let x := if transform.scaleX ≠ 0 then x / transform.scaleX else x
  let y := if transform.scaleY ≠ 0 then y / transform.scaleY else y
  { x := x, y := y }

/-- `pointInBounds` from `src/lib/vector/bounds.ts` (closed comparisons). -/
def pointInBounds (point : Point2D) (bounds : BoundingBox) : Bool :=
  point.x ≥ bounds.x && point.x ≤ bounds.x + bounds.width &&
  point.y ≥ bounds.y && point.y ≤ bounds.y + bounds.height

/-- `boundsIntersect` from `src/lib/vector/bounds.ts` (strict comparisons,
exactly as in the source). -/
def boundsIntersect (a : BoundingBox) (b : BoundingBox) : Bool :=
  a.x < b.x + b.width &&
  a.x + a.width > b.x &&
  a.y < b.y + b.height &&
  a.y + a.height > b.y

/-! ## Scene object model (`src/types/vector.ts`) -/

/-- Solid / gradient fills (`Fill`).  Gradient stops are (offset, color,
opacity) triples. -/
inductive Fill where
  | solid (color : String) (opacity : ℚ)
  | linearGradient (stops : List (ℚ × String × ℚ))
      (startX startY endX endY : ℚ)
  | radialGradient (stops : List (ℚ × String × ℚ)) (centerX centerY radius : ℚ)
  deriving DecidableEq, Repr

/-- Stroke style (`StrokeStyle`).  `lineCap`/`lineJoin` are kept as strings. -/
structure StrokeStyle where
  color : String
  opacity : ℚ
  width : ℚ
  lineCap : String
  lineJoin : String
  dashArray : List ℚ
  deriving DecidableEq, Repr

/-- Path segments (`PathSegment`). -/
inductive PathSegment where
  | moveTo (x y : ℚ)
  | lineTo (x y : ℚ)
  | cubic (cp1x cp1y cp2x cp2y x y : ℚ)
  | quad (cpx cpy x y : ℚ)
  | close
  deriving DecidableEq, Repr

/-- Fields shared by every vector object (`BaseVectorObject`). -/
structure ObjBase where
  id : String
  name : String
  transform : Transform2D
  fill : Option Fill
  stroke : Option StrokeStyle
  opacity : ℚ
  visible : Bool
  locked : Bool
  deriving DecidableEq, Repr

/-- The tagged variant of scene objects (`VectorObject`): each constructor
carries the shared base plus its variant-specific fields; `group` owns an
ordered child list. -/
inductive VectorObject where
  | rectangle (base : ObjBase) (width height : ℚ) (cornerRadius : List ℚ)
  | ellipse (base : ObjBase) (radiusX radiusY : ℚ)
  | path (base : ObjBase) (segments : List PathSegment) (closed : Bool)
  | line (base : ObjBase) (endX endY : ℚ)
  | polygon (base : ObjBase) (sides : ℕ) (radius : ℚ)
  | text (base : ObjBase) (content : String) (fontFamily : String)
      (fontSize : ℚ) (lineHeight : ℚ)
  | group (base : ObjBase) (children : List VectorObject)

/-- The shared base record of an object. -/
def VectorObject.base : VectorObject → ObjBase
  | .rectangle b _ _ _ => b
  | .ellipse b _ _ => b
  | .path b _ _ => b
  | .line b _ _ => b
  | .polygon b _ _ => b
  | .text b _ _ _ _ => b
  | .group b _ => b

/-- An object's stable id. -/
def VectorObject.id (o : VectorObject) : String := o.base.id

/-- An object's transform. -/
def VectorObject.transform (o : VectorObject) : Transform2D := o.base.transform

/-- An object's visibility flag. -/
def VectorObject.visible (o : VectorObject) : Bool := o.base.visible

/-- An object's lock flag. -/
def VectorObject.locked (o : VectorObject) : Bool := o.base.locked

/-- Layer (`VectorLayer`): ordered container of top-level objects. -/
structure VectorLayer where
  id : String
  name : String
  visible : Bool
  locked : Bool
  opacity : ℚ
  objects : List VectorObject

/-- `createLayer` from `src/types/vector.ts`. -/
def createLayer (id : String) (name : String) : VectorLayer :=
  { id := id, name := name, visible := true, locked := false, opacity := 1,
    objects := [] }

/-- `createTransform` from `src/types/vector.ts` (zero rotation, unit scale). -/
def createTransform (x : ℚ) (y : ℚ) : Transform2D :=
  { x := x, y := y, rotation := 0, rotCos := 1, rotSin := 0,
    scaleX := 1, scaleY := 1 }

/-! ## Hit-testing (`src/lib/vector/renderer.ts`, hit-test section)

Path hit-testing delegates to the canvas substrate (`isPointInPath` /
`isPointInStroke`); the embedding takes that substrate query as an oracle
argument `pathHit`, mirroring the `ctx` parameter of the source. -/

/-- `hitTestRectangle`. -/
def hitTestRectangle (localPt : Point2D) (width height : ℚ) : Bool :=
  localPt.x ≥ 0 && localPt.x ≤ width && localPt.y ≥ 0 && localPt.y ≤ height

/-- `hitTestEllipse`: guarded against zero radii, otherwise the normalized
radius test. -/
def hitTestEllipse (localPt : Point2D) (radiusX radiusY : ℚ) : Bool :=
  if radiusX = 0 || radiusY = 0 then false
  else
    let nx := localPt.x / radiusX
    let ny := localPt.y / radiusY
    nx * nx + ny * ny ≤ 1

/-- `hitTestLine`: distance from the segment (0,0)→(endX,endY) compared to a
fixed 5px tolerance; `Math.hypot _ _ ≤ 5` is embedded as the equivalent
squared comparison. -/
def hitTestLine (localPt : Point2D) (endX endY : ℚ) : Bool :=
  let tolerance : ℚ := 5
  let lenSq := endX * endX + endY * endY
  if lenSq = 0 then
    localPt.x ^ 2 + localPt.y ^ 2 ≤ tolerance ^ 2
  else
    let t := max 0 (min 1 ((localPt.x * endX + localPt.y * endY) / lenSq))
    let projX := t * endX
    let projY := t * endY
    (localPt.x - projX) ^ 2 + (localPt.y - projY) ^ 2 ≤ tolerance ^ 2

/-- `hitTestPolygon`: circumscribed-circle approximation, squared form. -/
def hitTestPolygon (localPt : Point2D) (_sides : ℕ) (radius : ℚ) : Bool :=
  localPt.x ^ 2 + localPt.y ^ 2 ≤ radius ^ 2 && 0 ≤ radius

/-- `hitTestText`: axis-aligned box against the approximate text extents. -/
def hitTestText (localPt : Point2D) (approxWidth approxHeight : ℚ) : Bool :=
  localPt.x ≥ 0 && localPt.x ≤ approxWidth &&
  localPt.y ≥ 0 && localPt.y ≤ approxHeight

mutual

/-- `hitTestObject`: transform the query point into local space and dispatch
per variant; a group tests its children in the group's local space.  The
source iterates children topmost-first and returns on the first hit, which for
the Boolean result equals "some child hits". -/
def hitTestObject (pathHit : List PathSegment → Bool → Option Fill →
    Option StrokeStyle → Point2D → Bool) (worldPoint : Point2D)
    (obj : VectorObject) : Bool :=
  let localPt := worldToLocal worldPoint obj.transform
  match obj with
  | .rectangle _ width height _ => hitTestRectangle localPt width height
  | .ellipse _ radiusX radiusY => hitTestEllipse localPt radiusX radiusY
  | .line _ endX endY => hitTestLine localPt endX endY
  | .polygon _ sides radius => hitTestPolygon localPt sides radius
  | .path b segments closed => pathHit segments closed b.fill b.stroke localPt
  | .text _ content _ fontSize lineHeight =>
      hitTestText localPt (content.length * fontSize * (3/5))
        (fontSize * lineHeight)
  | .group _ children => hitTestChildren pathHit localPt children

/-- Whether any object of a group's child list is hit (the group case of
`hitTestObject`). -/
def hitTestChildren (pathHit : List PathSegment → Bool → Option Fill →
    Option StrokeStyle → Point2D → Bool) (localPt : Point2D) :
    List VectorObject → Bool
  | [] => false
  | o :: rest =>
      hitTestObject pathHit localPt o || hitTestChildren pathHit localPt rest

end

/-- Result of a hit test (`HitTestResult`). -/
structure HitTestResult where
  object : VectorObject
  layerId : String

/-- `hitTestObjects`: walk an object list top-to-bottom (the source loops the
array from its last index down), skipping invisible or locked objects,
returning the first hit.  The embedding recurses over the reversed list. -/
def hitTestObjectsTopDown (pathHit : List PathSegment → Bool → Option Fill →
    Option StrokeStyle → Point2D → Bool) (point : Point2D)
    (layerId : String) : List VectorObject → Option HitTestResult
  | [] => none
  | o :: rest =>
      if o.visible && !o.locked && hitTestObject pathHit point o then
        some { object := o, layerId := layerId }
      else hitTestObjectsTopDown pathHit point layerId rest

/-- `hitTestLayers` walking the already-reversed layer list. -/
def hitTestLayersTopDown (pathHit : List PathSegment → Bool → Option Fill →
    Option StrokeStyle → Point2D → Bool) (point : Point2D) :
    List VectorLayer → Option HitTestResult
  | [] => none
  | layer :: rest =>
      if !layer.visible || layer.locked then
        hitTestLayersTopDown pathHit point rest
      else
        match hitTestObjectsTopDown pathHit point layer.id
            layer.objects.reverse with
        | some r => some r
        | none => hitTestLayersTopDown pathHit point rest

/-- `hitTestLayers` from `src/lib/vector/renderer.ts`: layers are walked from
the last index down (reverse render order). -/
def hitTestLayers (pathHit : List PathSegment → Bool → Option Fill →
    Option StrokeStyle → Point2D → Bool) (point : Point2D)
    (layers : List VectorLayer) : Option HitTestResult :=
  hitTestLayersTopDown pathHit point layers.reverse

/-! ## Document store (`src/store/documentStore.ts`)

JavaScript `Array.prototype.splice` clamps its start position into range;
`spliceInsert`/`spliceRemove` reproduce insertion of one element and removal
of one element with that clamping. -/

/-- Insert `a` at (clamped) position `i`, as `arr.splice(i, 0, a)`. -/
def spliceInsert {α : Type} (l : List α) (i : ℕ) (a : α) : List α :=
  l.take i ++ a :: l.drop i

/-- Remove the element at position `i` if any, as `arr.splice(i, 1)`. -/
def spliceRemove {α : Type} (l : List α) (i : ℕ) : List α :=
  l.take i ++ l.drop (i + 1)

/-- The source's reorder idiom: `const [removed] = arr.splice(from, 1);
arr.splice(to, 0, removed)`.  When `from` is out of range the source would
splice the JavaScript value `undefined` back in; the embedding leaves the
list unchanged in that case (the store's history well-formedness conditions
exclude it). -/
def jsReorder {α : Type} (l : List α) (fromIdx toIdx : ℕ) : List α :=
  match l.get? fromIdx with
  | none => l
  | some a => spliceInsert (spliceRemove l fromIdx) toIdx a

/-- A partial update of a vector object: the embedding of the
`Record<string, unknown>` spreads `{ ...obj, ...updates }` used by
`updateObject` and by the `before`/`after` fields of `modify-object`
operations.  One optional slot per mutable field of the object model; the
store's clients never patch `id` or `type`, and a key of a different variant
spread onto an object is invisible to every typed read of the result, so
those are not representable. -/
structure ObjPatch where
  name? : Option String := none
  transform? : Option Transform2D := none
  fill? : Option (Option Fill) := none
  stroke? : Option (Option StrokeStyle) := none
  opacity? : Option ℚ := none
  visible? : Option Bool := none
  locked? : Option Bool := none
  width? : Option ℚ := none
  height? : Option ℚ := none
  cornerRadius? : Option (List ℚ) := none
  radiusX? : Option ℚ := none
  radiusY? : Option ℚ := none
  segments? : Option (List PathSegment) := none
  closed? : Option Bool := none
  endX? : Option ℚ := none
  endY? : Option ℚ := none
  sides? : Option ℕ := none
  radius? : Option ℚ := none
  content? : Option String := none
  fontFamily? : Option String := none
  fontSize? : Option ℚ := none
  lineHeight? : Option ℚ := none
  children? : Option (List VectorObject) := none

/-- Apply the base-field part of a patch. -/
def ObjBase.applyPatch (b : ObjBase) (p : ObjPatch) : ObjBase :=
  { b with
    name := p.name?.getD b.name,
    transform := p.transform?.getD b.transform,
    fill := p.fill?.getD b.fill,
    stroke := p.stroke?.getD b.stroke,
    opacity := p.opacity?.getD b.opacity,
    visible := p.visible?.getD b.visible,
    locked := p.locked?.getD b.locked }

/-- Apply a patch to an object: shared fields always, variant fields on the
matching variant (`{ ...obj, ...updates } as VectorObject`). -/
def applyPatch (p : ObjPatch) : VectorObject → VectorObject
  | .rectangle b w h cr =>
      .rectangle (b.applyPatch p) (p.width?.getD w) (p.height?.getD h)
        (p.cornerRadius?.getD cr)
  | .ellipse b rx ry =>
      .ellipse (b.applyPatch p) (p.radiusX?.getD rx) (p.radiusY?.getD ry)
  | .path b segs c =>
      .path (b.applyPatch p) (p.segments?.getD segs) (p.closed?.getD c)
  | .line b ex ey =>
      .line (b.applyPatch p) (p.endX?.getD ex) (p.endY?.getD ey)
  | .polygon b s r =>
      .polygon (b.applyPatch p) (p.sides?.getD s) (p.radius?.getD r)
  | .text b c ff fs lh =>
      .text (b.applyPatch p) (p.content?.getD c) (p.fontFamily?.getD ff)
        (p.fontSize?.getD fs) (p.lineHeight?.getD lh)
  | .group b ch =>
      .group (b.applyPatch p) (p.children?.getD ch)

/-- A partial update of a layer (`Partial<Omit<VectorLayer, "id" | "objects">>`,
also the `before`/`after` of `modify-layer`). -/
structure LayerPatch where
  name? : Option String := none
  visible? : Option Bool := none
  locked? : Option Bool := none
  opacity? : Option ℚ := none
  deriving DecidableEq, Repr

/-- Apply a layer patch (`{ ...l, ...updates }`). -/
def VectorLayer.applyPatch (l : VectorLayer) (p : LayerPatch) : VectorLayer :=
  { l with
    name := p.name?.getD l.name,
    visible := p.visible?.getD l.visible,
    locked := p.locked?.getD l.locked,
    opacity := p.opacity?.getD l.opacity }

/-- History operations (`HistoryOperation` in `src/types/vector.ts`). -/
inductive HistoryOperation where
  | addObject (layerId : String) (object : VectorObject) (index : ℕ)
  | removeObject (layerId : String) (object : VectorObject) (index : ℕ)
  | modifyObject (objectId : String) (layerId : String)
      (before after : ObjPatch)
  | reorderObject (layerId : String) (fromIndex toIndex : ℕ)
  | addLayer (layer : VectorLayer) (index : ℕ)
  | removeLayer (layer : VectorLayer) (index : ℕ)
  | modifyLayer (layerId : String) (before after : LayerPatch)
  | batch (operations : List HistoryOperation)

/-- History entry (`HistoryEntry`). -/
structure HistoryEntry where
  id : String
  operations : List HistoryOperation
  timestamp : ℕ
  description : String

mutual

/-- `findObjectInList` from `src/store/documentStore.ts`: first object of the
list with the given id, recursing into group children. -/
def findObjectInList : List VectorObject → String → Option VectorObject
  | [], _ => none
  | o :: rest, objectId =>
      if o.id = objectId then some o
      else
        match findInChildren o objectId with
        | some found => some found
        | none => findObjectInList rest objectId

/-- The group-recursion step of `findObjectInList`. -/
def findInChildren : VectorObject → String → Option VectorObject
  | .group _ children, objectId => findObjectInList children objectId
  | _, _ => none

end

/-- The state of the document store (`DocumentState` in
`src/store/documentStore.ts`): scene graph, selection and history.
`historyIndex` is an integer because the store uses −1 for "nothing to
undo". -/
structure DocumentState where
  layers : List VectorLayer
  activeLayerId : String
  selectedObjectIds : List String
  history : List HistoryEntry
  historyIndex : ℤ
  maxHistoryLength : ℕ

/-- `addLayer`: append a fresh layer and make it active.  The source draws
the id from `uuidv4()`; the embedding takes it as a parameter. -/
def DocumentState.addLayer (id : String) (name : Option String)
    (s : DocumentState) : DocumentState :=
  let layerName := name.getD ("Layer " ++ toString (s.layers.length + 1))
  { s with layers := s.layers ++ [createLayer id layerName],
           activeLayerId := id }

/-- `removeLayer`: no-op with one layer; otherwise drop the layer, clear the
selection, and move the active pointer to the last remaining layer if the
removed layer was active.  When the filtered list is empty (only possible if
every layer shares the removed id) the source would fault reading
`newLayers[newLayers.length - 1].id`; the embedding keeps the old active id
in that unreachable case. -/
def DocumentState.removeLayer (layerId : String) (s : DocumentState) :
    DocumentState :=
  if s.layers.length ≤ 1 then s
  else
    let newLayers := s.layers.filter (fun l => l.id ≠ layerId)
    let newActiveId :=
      if s.activeLayerId = layerId then
        ((newLayers.getLast?).map VectorLayer.id).getD s.activeLayerId
      else s.activeLayerId
    { s with layers := newLayers, activeLayerId := newActiveId,
             selectedObjectIds := [] }

/-- `setActiveLayer`. -/
def DocumentState.setActiveLayer (layerId : String) (s : DocumentState) :
    DocumentState :=
  { s with activeLayerId := layerId }

/-- `updateLayer`. -/
def DocumentState.updateLayer (layerId : String) (updates : LayerPatch)
    (s : DocumentState) : DocumentState :=
  { s with layers := s.layers.map (fun l =>
      if l.id = layerId then l.applyPatch updates else l) }

/-- `reorderLayer`. -/
def DocumentState.reorderLayer (fromIndex toIndex : ℕ) (s : DocumentState) :
    DocumentState :=
  { s with layers := jsReorder s.layers fromIndex toIndex }

/-- `addObject`: insert into the layer with the given id, at `index` when
given, else at the end. -/
def DocumentState.addObject (layerId : String) (object : VectorObject)
    (index : Option ℕ) (s : DocumentState) : DocumentState :=
  { s with layers := s.layers.map (fun layer =>
      if layer.id ≠ layerId then layer
      else match index with
        | some i => { layer with objects := spliceInsert layer.objects i object }
        | none => { layer with objects := layer.objects ++ [object] }) }

/-- `removeObject`: drop every top-level object with the id from every layer
and prune the id from the selection. -/
def DocumentState.removeObject (objectId : String) (s : DocumentState) :
    DocumentState :=
  { s with
    layers := s.layers.map (fun layer =>
      { layer with objects := layer.objects.filter (fun o => o.id ≠ objectId) }),
    selectedObjectIds := s.selectedObjectIds.filter (fun id => id ≠ objectId) }

/-- `updateObject`: spread the updates over every top-level object with the
id. -/
def DocumentState.updateObject (objectId : String) (updates : ObjPatch)
    (s : DocumentState) : DocumentState :=
  { s with layers := s.layers.map (fun layer =>
      { layer with objects := layer.objects.map (fun o =>
          if o.id = objectId then applyPatch updates o else o) }) }

/-- `reorderObject`. -/
def DocumentState.reorderObject (layerId : String) (fromIndex toIndex : ℕ)
    (s : DocumentState) : DocumentState :=
  { s with layers := s.layers.map (fun layer =>
      if layer.id ≠ layerId then layer
      else { layer with objects := jsReorder layer.objects fromIndex toIndex }) }

/-- `selectObject`: replace the selection, or toggle membership when
`addToSelection` is set. -/
def DocumentState.selectObject (objectId : String) (addToSelection : Bool)
    (s : DocumentState) : DocumentState :=
  if addToSelection then
    if s.selectedObjectIds.contains objectId then
      { s with selectedObjectIds :=
          s.selectedObjectIds.filter (fun id => id ≠ objectId) }
    else
      { s with selectedObjectIds := s.selectedObjectIds ++ [objectId] }
  else { s with selectedObjectIds := [objectId] }

/-- `deselectObject`. -/
def DocumentState.deselectObject (objectId : String) (s : DocumentState) :
    DocumentState :=
  { s with selectedObjectIds :=
      s.selectedObjectIds.filter (fun id => id ≠ objectId) }

/-- `deselectAll`. -/
def DocumentState.deselectAll (s : DocumentState) : DocumentState :=
  { s with selectedObjectIds := [] }

/-- `selectAll`: select the visible unlocked top-level objects of the active
layer. -/
def DocumentState.selectAll (s : DocumentState) : DocumentState :=
  match s.layers.find? (fun l => l.id = s.activeLayerId) with
  | none => s
  | some activeLayer =>
      let sel := (activeLayer.objects.filter
        (fun o => o.visible && !o.locked)).map VectorObject.id
      { s with selectedObjectIds := sel }

/-- `setSelection`. -/
def DocumentState.setSelection (objectIds : List String) (s : DocumentState) :
    DocumentState :=
  { s with selectedObjectIds := objectIds }

/-- `pushHistory`: ignore empty operation lists; truncate the redo tail,
append the new entry, evict the oldest entry past the capacity, and point the
cursor at the newest entry.  The entry's id and timestamp come from
`uuidv4()`/`Date.now()` in the source and are parameters here. -/
def DocumentState.pushHistory (entryId : String) (timestamp : ℕ)
    (description : String) (operations : List HistoryOperation)
    (s : DocumentState) : DocumentState :=
  if operations.isEmpty then s
  else
    let entry : HistoryEntry :=
      { id := entryId, operations := operations, timestamp := timestamp,
        description := description }
    let newHistory := s.history.take (s.historyIndex + 1).toNat ++ [entry]
    if newHistory.length > s.maxHistoryLength then
      { s with history := newHistory.drop 1,
               historyIndex := (newHistory.drop 1).length - 1 }
    else
      { s with history := newHistory, historyIndex := newHistory.length - 1 }

/-- `getObject`: search each layer's objects, recursing into groups. -/
def DocumentState.getObject (objectId : String) (s : DocumentState) :
    Option VectorObject :=
  s.layers.findSome? (fun layer => findObjectInList layer.objects objectId)

/-- `getObjectLayerId`. -/
def DocumentState.getObjectLayerId (objectId : String) (s : DocumentState) :
    Option String :=
  s.layers.findSome? (fun layer =>
    (findObjectInList layer.objects objectId).map (fun _ => layer.id))

/-- `getSelectedObjects`: the selected objects in layer order then object
order (not selection order). -/
def DocumentState.getSelectedObjects (s : DocumentState) : List VectorObject :=
  if s.selectedObjectIds.isEmpty then []
  else
    (s.layers.map (fun layer =>
      layer.objects.filter (fun o => s.selectedObjectIds.contains o.id))).flatten

/-- `newDocument`: reset to a single fresh empty layer (id drawn from
`uuidv4()` in the source, a parameter here), clearing selection and
history. -/
def DocumentState.newDocument (freshLayerId : String) (s : DocumentState) :
    DocumentState :=
  { s with layers := [createLayer freshLayerId "Layer 1"],
           activeLayerId := freshLayerId,
           selectedObjectIds := [],
           history := [],
           historyIndex := -1 }

/-- `loadDocument`: replace the scene wholesale, clearing selection and
history. -/
def DocumentState.loadDocument (layers : List VectorLayer)
    (activeLayerId : String) (s : DocumentState) : DocumentState :=
  { s with layers := layers, activeLayerId := activeLayerId,
           selectedObjectIds := [], history := [], historyIndex := -1 }

mutual

/-- `applyOperationForward` from `src/store/documentStore.ts` (the redo
direction), acting on the layer list — every case of the source's `setState`
writes only `layers`. -/
def applyOperationForward (op : HistoryOperation)
    (layers : List VectorLayer) : List VectorLayer :=
  match op with
  | .addObject layerId object index =>
      layers.map fun layer =>
        if layer.id = layerId then
          { layer with objects := spliceInsert layer.objects index object }
        else layer
  | .removeObject layerId object _ =>
      layers.map fun layer =>
        if layer.id = layerId then
          { layer with objects :=
              layer.objects.filter (fun o => o.id ≠ object.id) }
        else layer
  | .modifyObject objectId layerId _ after =>
      layers.map fun layer =>
        if layer.id = layerId then
          { layer with objects := layer.objects.map (fun o =>
              if o.id = objectId then applyPatch after o else o) }
        else layer
  | .reorderObject layerId fromIndex toIndex =>
      layers.map fun layer =>
        if layer.id = layerId then
          { layer with objects := jsReorder layer.objects fromIndex toIndex }
        else layer
  | .addLayer layer index => spliceInsert layers index layer
  | .removeLayer layer _ => layers.filter (fun l => l.id ≠ layer.id)
  | .modifyLayer layerId _ after =>
      layers.map fun l => if l.id = layerId then l.applyPatch after else l
  | .batch operations => applyOperationsForward operations layers

/-- `applyOperationsForward`: operations in order. -/
def applyOperationsForward (operations : List HistoryOperation)
    (layers : List VectorLayer) : List VectorLayer :=
  match operations with
  | [] => layers
  | op :: rest => applyOperationsForward rest (applyOperationForward op layers)

end

mutual

/-- `applyOperationReverse` from `src/store/documentStore.ts` (the undo
direction): add ↔ remove, modify restores `before`, reorder moves back,
a batch reverses its members in reverse order. -/
def applyOperationReverse (op : HistoryOperation)
    (layers : List VectorLayer) : List VectorLayer :=
  match op with
  | .addObject layerId object _ =>
      layers.map fun layer =>
        if layer.id = layerId then
          { layer with objects :=
              layer.objects.filter (fun o => o.id ≠ object.id) }
        else layer
  | .removeObject layerId object index =>
      layers.map fun layer =>
        if layer.id = layerId then
          { layer with objects := spliceInsert layer.objects index object }
        else layer
  | .modifyObject objectId layerId before _ =>
      layers.map fun layer =>
        if layer.id = layerId then
          { layer with objects := layer.objects.map (fun o =>
              if o.id = objectId then applyPatch before o else o) }
        else layer
  | .reorderObject layerId fromIndex toIndex =>
      layers.map fun layer =>
        if layer.id = layerId then
          { layer with objects := jsReorder layer.objects toIndex fromIndex }
        else layer
  | .addLayer layer _ => layers.filter (fun l => l.id ≠ layer.id)
  | .removeLayer layer index => spliceInsert layers index layer
  | .modifyLayer layerId before _ =>
      layers.map fun l => if l.id = layerId then l.applyPatch before else l
  | .batch operations => applyOperationsReverse operations layers

/-- `applyOperationsReverse`: operations in reverse order (the source loops
from the last index down). -/
def applyOperationsReverse (operations : List HistoryOperation)
    (layers : List VectorLayer) : List VectorLayer :=
  match operations with
  | [] => layers
  | op :: rest => applyOperationReverse op (applyOperationsReverse rest layers)

end

/-- `undo`: no-op below index 0, else apply the entry at the cursor in
reverse and decrement the cursor.  An out-of-range positive cursor would
fault in the source (`history[i]` is `undefined`); the embedding returns the
state unchanged in that unreachable case. -/
def DocumentState.undo (s : DocumentState) : DocumentState :=
  if s.historyIndex < 0 then s
  else
    match s.history.get? s.historyIndex.toNat with
    | none => s
    | some entry =>
        { s with layers := applyOperationsReverse entry.operations s.layers,
                 historyIndex := s.historyIndex - 1 }

/-- `redo`: no-op at the list end, else apply the next entry forward and
increment the cursor. -/
def DocumentState.redo (s : DocumentState) : DocumentState :=
  if s.historyIndex ≥ (s.history.length : ℤ) - 1 then s
  else
    match s.history.get? (s.historyIndex + 1).toNat with
    | none => s
    | some entry =>
        { s with layers := applyOperationsForward entry.operations s.layers,
                 historyIndex := s.historyIndex + 1 }

/-- `canUndo`. -/
def DocumentState.canUndo (s : DocumentState) : Bool :=
  s.historyIndex ≥ 0

/-- `canRedo`. -/
def DocumentState.canRedo (s : DocumentState) : Bool :=
  s.historyIndex < (s.history.length : ℤ) - 1

/-- `clearHistory`. -/
def DocumentState.clearHistory (s : DocumentState) : DocumentState :=
  { s with history := [], historyIndex := -1 }

/-! ## Well-formedness of history operations

A history entry undoes exactly when its recorded data matches the state it
is undone from: an `add-object` is fresh for its layer, a `remove-object`
records the object and its position, a `modify-object`'s `before` patch
restores what its `after` patch changed, reorder indices are in range, and
batches satisfy this sequentially.  Entries produced by the store's callers
(create/delete/move/resize/nudge gestures) satisfy these conditions by
construction. -/

mutual

/-- Well-formedness of one operation against the layer list it is applied
forward to. -/
def wfOperation (op : HistoryOperation) (layers : List VectorLayer) : Prop :=
  match op with
  | .addObject layerId object _ =>
      ∀ layer ∈ layers, layer.id = layerId →
        ∀ o ∈ layer.objects, o.id ≠ object.id
  | .removeObject layerId object index =>
      ∀ layer ∈ layers, layer.id = layerId →
        layer.objects.get? index = some object ∧
        (∀ o ∈ layer.objects.take index, o.id ≠ object.id) ∧
        (∀ o ∈ layer.objects.drop (index + 1), o.id ≠ object.id)
  | .modifyObject objectId layerId before after =>
      ∀ layer ∈ layers, layer.id = layerId →
        ∀ o ∈ layer.objects, o.id = objectId →
          applyPatch before (applyPatch after o) = o
  | .reorderObject layerId fromIndex toIndex =>
      ∀ layer ∈ layers, layer.id = layerId →
        fromIndex < layer.objects.length ∧ toIndex < layer.objects.length
  | .addLayer layer _ => ∀ l ∈ layers, l.id ≠ layer.id
  | .removeLayer layer index =>
      layers.get? index = some layer ∧
      (∀ l ∈ layers.take index, l.id ≠ layer.id) ∧
      (∀ l ∈ layers.drop (index + 1), l.id ≠ layer.id)
  | .modifyLayer layerId before after =>
      ∀ l ∈ layers, l.id = layerId → (l.applyPatch after).applyPatch before = l
  | .batch operations => wfOperations operations layers

/-- Sequential well-formedness of an operation list. -/
def wfOperations (operations : List HistoryOperation)
    (layers : List VectorLayer) : Prop :=
  match operations with
  | [] => True
  | op :: rest =>
      wfOperation op layers ∧ wfOperations rest (applyOperationForward op layers)

end

/-- Apply a list of history entries forward, in order. -/
def applyEntriesForward : List HistoryEntry → List VectorLayer → List VectorLayer
  | [], layers => layers
  | e :: rest, layers =>
      applyEntriesForward rest (applyOperationsForward e.operations layers)

/-- Sequential well-formedness of a list of history entries. -/
def wfEntries : List HistoryEntry → List VectorLayer → Prop
  | [], _ => True
  | e :: rest, layers =>
      wfOperations e.operations layers ∧
      wfEntries rest (applyOperationsForward e.operations layers)

/-- Concrete rectangle used by several concrete-state theorems. -/
def c1Rect : VectorObject :=
  .rectangle ⟨"r1", "Rect 1", createTransform 10 10, none, none, 1, true,
    false⟩ 100 50 [0, 0, 0, 0]

/-- Concrete one-entry history: a single `add-object`. -/
def c1Entry : HistoryEntry :=
  { id := "h1", operations := [.addObject "L1" c1Rect 0], timestamp := 0,
    description := "Create rectangle" }

/-- Concrete document state right after a create gesture committed and
pushed its entry. -/
def c1State : DocumentState :=
  { layers := applyEntriesForward [c1Entry] [createLayer "L1" "Layer 1"],
    activeLayerId := "L1", selectedObjectIds := ["r1"],
    history := [c1Entry], historyIndex := 0, maxHistoryLength := 200 }

/-- `transformBounds` from `src/lib/vector/bounds.ts`: transform the four
corners and take the enclosing axis-aligned box (the source folds min/max
from ±Infinity over the same four corners). -/
def transformBounds (bounds : BoundingBox) (transform : Transform2D) :
    BoundingBox :=
  let c1 := localToWorld ⟨bounds.x, bounds.y⟩ transform
  let c2 := localToWorld ⟨bounds.x + bounds.width, bounds.y⟩ transform
  let c3 := localToWorld ⟨bounds.x + bounds.width, bounds.y + bounds.height⟩
    transform
  let c4 := localToWorld ⟨bounds.x, bounds.y + bounds.height⟩ transform
  let minX := min (min (min c1.x c2.x) c3.x) c4.x
  let minY := min (min (min c1.y c2.y) c3.y) c4.y
  let maxX := max (max (max c1.x c2.x) c3.x) c4.x
  let maxY := max (max (max c1.y c2.y) c3.y) c4.y
  { x := minX, y := minY, width := maxX - minX, height := maxY - minY }

/-- `mergeBounds`: union box; the empty list gives the zero box and a
non-empty list folds min/max from its head (the source folds from
±Infinity, which is the same for a non-empty list). -/
def mergeBounds (boxes : List BoundingBox) : BoundingBox :=
  match boxes with
  | [] => ⟨0, 0, 0, 0⟩
  | b :: rest =>
      let minX := rest.foldl (fun acc bb => min acc bb.x) b.x
      let minY := rest.foldl (fun acc bb => min acc bb.y) b.y
      let maxX := rest.foldl (fun acc bb => max acc (bb.x + bb.width))
        (b.x + b.width)
      let maxY := rest.foldl (fun acc bb => max acc (bb.y + bb.height))
        (b.y + b.height)
      ⟨minX, minY, maxX - minX, maxY - minY⟩

/-- The coordinates a path segment contributes to its bounds. -/
def pathSegPoints : PathSegment → List (ℚ × ℚ)
  | .moveTo x y => [(x, y)]
  | .lineTo x y => [(x, y)]
  | .cubic cp1x cp1y cp2x cp2y x y => [(cp1x, cp1y), (cp2x, cp2y), (x, y)]
  | .quad cpx cpy x y => [(cpx, cpy), (x, y)]
  | .close => []

/-- `getPathBounds`: min/max over all segment coordinates; zero box when
there are none. -/
def getPathBounds (segments : List PathSegment) : BoundingBox :=
  match (segments.map pathSegPoints).flatten with
  | [] => ⟨0, 0, 0, 0⟩
  | p :: rest =>
      let minX := rest.foldl (fun acc q => min acc q.1) p.1
      let minY := rest.foldl (fun acc q => min acc q.2) p.2
      let maxX := rest.foldl (fun acc q => max acc q.1) p.1
      let maxY := rest.foldl (fun acc q => max acc q.2) p.2
      ⟨minX, minY, maxX - minX, maxY - minY⟩

mutual

/-- `getLocalBounds` from `src/lib/vector/bounds.ts`. -/
def getLocalBounds : VectorObject → BoundingBox
  | .rectangle _ width height _ => ⟨0, 0, width, height⟩
  | .ellipse _ radiusX radiusY =>
      ⟨-radiusX, -radiusY, radiusX * 2, radiusY * 2⟩
  | .line _ endX endY => ⟨min 0 endX, min 0 endY, |endX|, |endY|⟩
  | .polygon _ _ radius => ⟨-radius, -radius, radius * 2, radius * 2⟩
  | .path _ segments _ => getPathBounds segments
  | .text _ content _ fontSize lineHeight =>
      ⟨0, 0, content.length * fontSize * (3/5), fontSize * lineHeight⟩
  | .group _ children =>
      -- the source returns the zero box for an empty child list, which is
      -- exactly `mergeBounds []`
      mergeBounds (worldBoundsList children)

/-- World bounds of each object of a list (the `children.map(getWorldBounds)`
of the group case). -/
def worldBoundsList : List VectorObject → List BoundingBox
  | [] => []
  | o :: rest => getWorldBounds o :: worldBoundsList rest

/-- `getWorldBounds`: local bounds pushed through the object's transform. -/
def getWorldBounds (o : VectorObject) : BoundingBox :=
  transformBounds (getLocalBounds o) o.transform

end

/-! ## Selection tool (`src/hooks/useSelectionTool.ts`) -/

/-- The eight resize handles. -/
inductive HandleId where
  | tl | tc | tr | mr | br | bc | bl | ml
  deriving DecidableEq, Repr

/-- `extractResizeProps`: the per-variant snapshot a resize gesture records
(transform plus the type-specific size fields). -/
def extractResizeProps (o : VectorObject) : ObjPatch :=
  match o with
  | .rectangle _ w h _ =>
      { transform? := some o.transform, width? := some w, height? := some h }
  | .ellipse _ rx ry =>
      { transform? := some o.transform, radiusX? := some rx,
        radiusY? := some ry }
  | .line _ ex ey =>
      { transform? := some o.transform, endX? := some ex, endY? := some ey }
  | .polygon _ _ r =>
      { transform? := some o.transform, radius? := some r }
  | _ => { transform? := some o.transform }

/-- The per-gesture state a resize drag needs (`DragState`, restricted to
the fields `applyResize` reads): the grabbed handle, the original positions
and size snapshots keyed by object id, and the combined selection box at
drag start. -/
structure DragState where
  handleId : Option HandleId
  origTransforms : List (String × ℚ × ℚ)
  origProps : List (String × ObjPatch)
  origBounds : Option BoundingBox

/-- `saveOriginals`: snapshot every selected object's position and resize
props, and the combined world box of the selection (left empty when nothing
is selected). -/
def saveOriginals (handleId : Option HandleId) (store : DocumentState) :
    DragState :=
  let selected := store.getSelectedObjects
  { handleId := handleId,
    origTransforms := selected.map (fun o =>
      (o.id, o.transform.x, o.transform.y)),
    origProps := selected.map (fun o => (o.id, extractResizeProps o)),
    origBounds :=
      if selected.isEmpty then none
      else some (mergeBounds (selected.map getWorldBounds)) }

/-- The new selection box for a handle drag: each handle moves only its
edges, then width/height are clamped to the 2×2 minimum. -/
def resizeNewBounds (h : HandleId) (ob : BoundingBox) (point : Point2D) :
    BoundingBox :=
  let nb : BoundingBox :=
    match h with
    | .br => ⟨ob.x, ob.y, point.x - ob.x, point.y - ob.y⟩
    | .bl => ⟨point.x, ob.y, ob.x + ob.width - point.x, point.y - ob.y⟩
    | .tr => ⟨ob.x, point.y, point.x - ob.x, ob.y + ob.height - point.y⟩
    | .tl => ⟨point.x, point.y, ob.x + ob.width - point.x,
        ob.y + ob.height - point.y⟩
    | .mr => ⟨ob.x, ob.y, point.x - ob.x, ob.height⟩
    | .ml => ⟨point.x, ob.y, ob.x + ob.width - point.x, ob.height⟩
    | .bc => ⟨ob.x, ob.y, ob.width, point.y - ob.y⟩
    | .tc => ⟨ob.x, point.y, ob.width, ob.y + ob.height - point.y⟩
  { nb with width := if nb.width < 2 then 2 else nb.width,
            height := if nb.height < 2 then 2 else nb.height }

/-- `applyResize` from `src/hooks/useSelectionTool.ts`: derive (sx, sy) from
the anchor box and the clamped new bounds, then rescale every selected
object's position relative to the anchor origin and its type-specific size
fields (polygon radius by `max sx sy`).  The loop walks the selection ids,
reading each object from the evolving store as the source does. -/
def applyResize (ds : DragState) (store : DocumentState) (point : Point2D) :
    DocumentState :=
  match ds.origBounds, ds.handleId with
  | some ob, some h =>
      let nb := resizeNewBounds h ob point
      let sx := if ob.width > 0 then nb.width / ob.width else 1
      let sy := if ob.height > 0 then nb.height / ob.height else 1
      store.selectedObjectIds.foldl (fun st id =>
        match ds.origProps.lookup id, ds.origTransforms.lookup id with
        | some origP, some origT =>
            match st.getObject id with
            | some obj =>
                let newX := nb.x + (origT.1 - ob.x) * sx
                let newY := nb.y + (origT.2 - ob.y) * sy
                let baseUpd : ObjPatch :=
                  { transform? :=
                      some { obj.transform with x := newX, y := newY } }
                let upd : ObjPatch :=
                  match obj with
                  | .rectangle _ _ _ _ =>
                      { baseUpd with
                        width? := some ((origP.width?.getD 0) * sx),
                        height? := some ((origP.height?.getD 0) * sy) }
                  | .ellipse _ _ _ =>
                      { baseUpd with
                        radiusX? := some ((origP.radiusX?.getD 0) * sx),
                        radiusY? := some ((origP.radiusY?.getD 0) * sy) }
                  | .line _ _ _ =>
                      { baseUpd with
                        endX? := some ((origP.endX?.getD 0) * sx),
                        endY? := some ((origP.endY?.getD 0) * sy) }
                  | .polygon _ _ _ =>
                      { baseUpd with
                        radius? := some ((origP.radius?.getD 0) * max sx sy) }
                  | _ => baseUpd
                st.updateObject id upd
            | none => st
        | _, _ => st) store
  | _, _ => store

/-- The hit-test contract as the design document words it: walk the reversed
layer list skipping invisible or locked layers, in each walk the reversed
object list skipping invisible or locked objects, and return the first
object that `hitTestObject` accepts, paired with its layer id; `none`
otherwise. -/
def hitTestLayersSpec (pathHit : List PathSegment → Bool → Option Fill →
    Option StrokeStyle → Point2D → Bool) (point : Point2D)
    (layers : List VectorLayer) : Option HitTestResult :=
  (layers.reverse.filter (fun l => l.visible && !l.locked)).findSome?
    (fun layer =>
      ((layer.objects.reverse.filter (fun o => o.visible && !o.locked)).find?
        (fun o => hitTestObject pathHit point o)).map
        (fun o => { object := o, layerId := layer.id }))

/-- The selection-validity invariant of the design document: every selected
id names a top-level object of some layer. -/
def selectionValid (s : DocumentState) : Prop :=
  ∀ id ∈ s.selectedObjectIds, ∃ layer ∈ s.layers, ∃ o ∈ layer.objects,
    VectorObject.id o = id

/-- A document whose selection holds an id that no object has (reachable,
e.g., by undoing an add-object: see the C2 counterexample). -/
def c9State : DocumentState :=
  { layers := [createLayer "L1" "Layer 1"], activeLayerId := "L1",
    selectedObjectIds := ["ghost"], history := [], historyIndex := -1,
    maxHistoryLength := 200 }

/-- A two-layer document for the C10 witness. -/
def c10State : DocumentState :=
  { layers := [createLayer "A" "Layer 1", createLayer "B" "Layer 2"],
    activeLayerId := "B", selectedObjectIds := [],
    history := [], historyIndex := -1, maxHistoryLength := 200 }

/-- The C5 rectangle: identity transform, 100×100 at the origin. -/
def c5Rect : VectorObject :=
  .rectangle ⟨"r1", "Rect", createTransform 0 0, none, none, 1, true, false⟩
    100 100 [0, 0, 0, 0]

/-- The C5 document: one layer holding the selected rectangle. -/
def c5Doc : DocumentState :=
  { layers := [{ (createLayer "L1" "Layer 1") with objects := [c5Rect] }],
    activeLayerId := "L1", selectedObjectIds := ["r1"], history := [],
    historyIndex := -1, maxHistoryLength := 200 }

/-- The C5 drag state: the snapshot `saveOriginals` takes at pointer-down on
a handle. -/
def c5Drag (h : HandleId) : DragState := saveOriginals (some h) c5Doc

/-- A small named rectangle for the multi-delete scenario. -/
def c1BugRect (id : String) : VectorObject :=
  .rectangle ⟨id, id, createTransform 0 0, none, none, 1, true, false⟩
    10 10 [0, 0, 0, 0]

/-- Pre-delete document: one layer holding rectangles a, b, c, d with a and
c selected. -/
def c1BugDoc0 : DocumentState :=
  { layers := [{ (createLayer "L" "Layer 1") with objects :=
      [c1BugRect "a", c1BugRect "b", c1BugRect "c", c1BugRect "d"] }],
    activeLayerId := "L", selectedObjectIds := ["a", "c"], history := [],
    historyIndex := -1, maxHistoryLength := 200 }

/-- The document after the Delete-key gesture of the keyboard-shortcuts
hook, transcribed step by step: the handler first builds one
`remove-object` op per selected object with the object, its layer and its
index all read from the pre-removal state (index 0 for a, index 2 for c),
then removes the objects (in reverse selection order), then pushes the two
ops as one entry. -/
def c1BugDoc1 : DocumentState :=
  ((c1BugDoc0.removeObject "c").removeObject "a").pushHistory "h1" 0
    "Delete objects"
    [.removeObject "L" (c1BugRect "a") 0, .removeObject "L" (c1BugRect "c") 2]

/-! ## Theorems -/
/-- C6 — Transform round-trip: for every point and every transform with
nonzero scales whose carried cosine/sine pair lies on the unit circle,
`worldToLocal` inverts `localToWorld` exactly. -/
theorem worldToLocal_localToWorld (p : Point2D) (t : Transform2D)
    (hx : t.scaleX ≠ 0) (hy : t.scaleY ≠ 0)
    (hcs : t.rotCos ^ 2 + t.rotSin ^ 2 = 1) :
    worldToLocal (localToWorld p t) t = p := by
  obtain ⟨px, py⟩ := p
  unfold localToWorld worldToLocal
  by_cases hrot : t.rotation = 0
  · simp only [hrot, ne_eq, not_true_eq_false, ite_false, hx, hy, ite_true,
      not_false_eq_true, Point2D.mk.injEq]
    constructor <;> field_simp
  · simp only [hrot, ne_eq, not_false_eq_true, ite_true, hx, hy,
      Point2D.mk.injEq]
    constructor <;> field_simp
    · linear_combination (px * t.scaleX) * hcs
    · linear_combination (py * t.scaleY) * hcs

/-- Witness for C6 at a concrete point and transform (3-4-5 rotation,
scales 2 and -3). -/
theorem worldToLocal_localToWorld_witness :
    worldToLocal (localToWorld ⟨5, 7⟩
      ⟨10, -2, 53, 3/5, 4/5, 2, -3⟩) ⟨10, -2, 53, 3/5, 4/5, 2, -3⟩ = ⟨5, 7⟩ :=
  worldToLocal_localToWorld ⟨5, 7⟩ ⟨10, -2, 53, 3/5, 4/5, 2, -3⟩
    (by norm_num) (by norm_num) (by norm_num)

/-! ## C7 — `boundsIntersect` -/

/-- C7 counterexample — the claim says closed-interval overlap (touching
counts); but for the boxes (0,0,1,1) and (1,0,1,1), which share the whole
closed edge x = 1 (the point (1,0) lies in both closed rectangles, per the
source's own `pointInBounds`), `boundsIntersect` returns `false`: the source
uses strict comparisons. -/
theorem boundsIntersect_touching_counterexample :
    pointInBounds ⟨1, 0⟩ ⟨0, 0, 1, 1⟩ = true ∧
    pointInBounds ⟨1, 0⟩ ⟨1, 0, 1, 1⟩ = true ∧
    boundsIntersect ⟨0, 0, 1, 1⟩ ⟨1, 0, 1, 1⟩ = false := by
  refine ⟨?_, ?_, ?_⟩ <;> simp [pointInBounds, boundsIntersect]

/-- C7 amended — `boundsIntersect` is an *open*-interval overlap test: for
boxes of positive width and height it returns `true` exactly when the open
rectangles (a.x, a.x+a.width) × (a.y, a.y+a.height) and the corresponding
open rectangle of `b` share a point; boxes that merely touch at an edge or
corner do not count as intersecting. -/
theorem boundsIntersect_iff_open_overlap (a b : BoundingBox)
    (haw : 0 < a.width) (hah : 0 < a.height)
    (hbw : 0 < b.width) (hbh : 0 < b.height) :
    boundsIntersect a b = true ↔
      ∃ p : Point2D,
        (a.x < p.x ∧ p.x < a.x + a.width ∧ a.y < p.y ∧ p.y < a.y + a.height) ∧
        (b.x < p.x ∧ p.x < b.x + b.width ∧ b.y < p.y ∧ p.y < b.y + b.height) := by
  have hb : boundsIntersect a b = true ↔
      (a.x < b.x + b.width ∧ b.x < a.x + a.width ∧
       a.y < b.y + b.height ∧ b.y < a.y + a.height) := by
    simp [boundsIntersect, and_assoc]
  rw [hb]
  constructor
  · rintro ⟨h1, h2, h3, h4⟩
    have hx : max a.x b.x < min (a.x + a.width) (b.x + b.width) :=
      max_lt (lt_min (by linarith) h1) (lt_min h2 (by linarith))
    have hy : max a.y b.y < min (a.y + a.height) (b.y + b.height) :=
      max_lt (lt_min (by linarith) h3) (lt_min h4 (by linarith))
    refine ⟨⟨(max a.x b.x + min (a.x + a.width) (b.x + b.width)) / 2,
             (max a.y b.y + min (a.y + a.height) (b.y + b.height)) / 2⟩, ?_, ?_⟩ <;>
      refine ⟨?_, ?_, ?_, ?_⟩ <;>
      · have h5 := left_lt_add_div_two.mpr hx
        have h6 := add_div_two_lt_right.mpr hx
        have h7 := left_lt_add_div_two.mpr hy
        have h8 := add_div_two_lt_right.mpr hy
        have := le_max_left a.x b.x
        have := le_max_right a.x b.x
        have := min_le_left (a.x + a.width) (b.x + b.width)
        have := min_le_right (a.x + a.width) (b.x + b.width)
        have := le_max_left a.y b.y
        have := le_max_right a.y b.y
        have := min_le_left (a.y + a.height) (b.y + b.height)
        have := min_le_right (a.y + a.height) (b.y + b.height)
        linarith
  · rintro ⟨p, ⟨pa1, pa2, pa3, pa4⟩, pb1, pb2, pb3, pb4⟩
    exact ⟨by linarith, by linarith, by linarith, by linarith⟩

/-! ## C8 — degenerate geometry -/

/-- C8 — degenerate geometry is total and well-defined: an ellipse with a
zero radius is never hit (the guard fires before any division); the
zero-length line compares the squared distance from the origin against the
fixed 5px tolerance; and `worldToLocal` leaves a zero-scale axis at the
pre-image translation (and inverse-rotation) offset rather than dividing
by the zero scale. -/
theorem degenerate_geometry_total :
    (∀ (p : Point2D) (ry : ℚ), hitTestEllipse p 0 ry = false) ∧
    (∀ (p : Point2D) (rx : ℚ), hitTestEllipse p rx 0 = false) ∧
    (∀ p : Point2D, hitTestLine p 0 0 = decide (p.x ^ 2 + p.y ^ 2 ≤ 25)) ∧
    (∀ (p : Point2D) (t : Transform2D), t.scaleX = 0 →
      (worldToLocal p t).x =
        if t.rotation ≠ 0 then
          (p.x - t.x) * t.rotCos + (p.y - t.y) * t.rotSin
        else p.x - t.x) ∧
    (∀ (p : Point2D) (t : Transform2D), t.scaleY = 0 →
      (worldToLocal p t).y =
        if t.rotation ≠ 0 then
          (p.x - t.x) * (-t.rotSin) + (p.y - t.y) * t.rotCos
        else p.y - t.y) := by
  refine ⟨?_, ?_, ?_, ?_, ?_⟩
  · intro p ry; simp [hitTestEllipse]
  · intro p rx; simp [hitTestEllipse]
  · intro p
    simp only [hitTestLine]
    norm_num
  · intro p t h
    simp only [worldToLocal, h, ite_false, if_neg (by norm_num : ¬(0:ℚ) ≠ 0)]
    split <;> ring_nf
  · intro p t h
    simp only [worldToLocal, h, ite_false, if_neg (by norm_num : ¬(0:ℚ) ≠ 0)]
    split <;> ring_nf

/-- Witness for C8 at concrete inputs: a degenerate ellipse at the origin
is not hit, a zero-length line is hit within tolerance, and a zero-scale-x
transform leaves the x axis at the translation offset. -/
theorem degenerate_geometry_total_witness :
    hitTestEllipse ⟨0, 0⟩ 0 4 = false ∧
    hitTestLine ⟨3, 4⟩ 0 0 = true ∧
    (worldToLocal ⟨7, 9⟩ ⟨2, 1, 0, 1, 0, 0, 1⟩).x = 5 := by
  refine ⟨degenerate_geometry_total.1 ⟨0, 0⟩ 4, ?_, ?_⟩
  · rw [degenerate_geometry_total.2.2.1 ⟨3, 4⟩]
    norm_num
  · rw [degenerate_geometry_total.2.2.2.1 ⟨7, 9⟩ ⟨2, 1, 0, 1, 0, 0, 1⟩ rfl]
    norm_num

/-! ## List lemmas for the splice helpers -/

/-- A list decomposes around the element reported by `get?`. -/
theorem take_cons_drop_of_get {α : Type} {l : List α} {i : ℕ} {a : α}
    (h : l.get? i = some a) : l.take i ++ a :: l.drop (i + 1) = l := by
  induction l generalizing i with
  | nil => simp at h
  | cons x xs ih =>
      cases i with
      | zero => simp_all
      | succ n =>
          simp only [List.get?] at h
          simpa using ih h

/-- `get?` of a list bounds the index. -/
theorem lt_length_of_get {α : Type} {l : List α} {i : ℕ} {a : α}
    (h : l.get? i = some a) : i < l.length :=
  List.get?_eq_some.mp h |>.1

/-- Filtering after a clamped insert removes exactly the inserted element
when nothing else fails the predicate. -/
theorem filter_spliceInsert {α : Type} {p : α → Bool} {l : List α} {a : α}
    (i : ℕ) (hpa : p a = false) (hl : ∀ x ∈ l, p x = true) :
    (spliceInsert l i a).filter p = l := by
  unfold spliceInsert
  rw [List.filter_append, List.filter_cons_of_neg (by simp [hpa]),
    List.filter_eq_self.mpr (fun x hx => hl x (List.take_subset i l hx)),
    List.filter_eq_self.mpr (fun x hx => hl x (List.drop_subset i l hx)),
    List.take_append_drop]

/-- Re-inserting a removed element at its recorded position restores the
list, provided every other element passes the predicate and the element
itself fails it. -/
theorem spliceInsert_filter {α : Type} {p : α → Bool} {l : List α} {i : ℕ}
    {a : α} (hget : l.get? i = some a) (hpa : p a = false)
    (htake : ∀ x ∈ l.take i, p x = true)
    (hdrop : ∀ x ∈ l.drop (i + 1), p x = true) :
    spliceInsert (l.filter p) i a = l := by
  have hdec := take_cons_drop_of_get hget
  have hi : i < l.length := lt_length_of_get hget
  have hfilter : l.filter p = l.take i ++ l.drop (i + 1) := by
    conv_lhs => rw [← hdec]
    rw [List.filter_append, List.filter_cons_of_neg (by simp [hpa]),
      List.filter_eq_self.mpr htake, List.filter_eq_self.mpr hdrop]
  have hlen : (l.take i).length = i := by
    simp [List.length_take, Nat.min_eq_left (Nat.le_of_lt hi)]
  rw [hfilter]
  unfold spliceInsert
  rw [List.take_append_of_le_length (by omega), List.take_of_length_le (by omega),
    List.drop_append_of_le_length (by omega), List.drop_of_length_le (by omega)]
  simpa using hdec

/-- Length of a within-range removal. -/
theorem length_spliceRemove {α : Type} {l : List α} {i : ℕ}
    (hi : i < l.length) : (spliceRemove l i).length = l.length - 1 := by
  unfold spliceRemove
  simp only [List.length_append, List.length_take, List.length_drop]
  omega

/-- Reading back the element just inserted. -/
theorem get_spliceInsert {α : Type} {m : List α} {j : ℕ} {b : α}
    (hj : j ≤ m.length) : (spliceInsert m j b).get? j = some b := by
  unfold spliceInsert
  rw [List.get?_append_right (by simp only [List.length_take]; omega)]
  simp [List.length_take, Nat.min_eq_left hj]

/-- Removing at the insertion point undoes a clamped insert. -/
theorem spliceRemove_spliceInsert {α : Type} {m : List α} {j : ℕ} {b : α}
    (hj : j ≤ m.length) : spliceRemove (spliceInsert m j b) j = m := by
  unfold spliceInsert spliceRemove
  have hlen : (m.take j).length = j := by
    simp [List.length_take, Nat.min_eq_left hj]
  rw [List.take_append_of_le_length (by omega),
    List.take_of_length_le (by omega)]
  have hcons : m.take j ++ b :: m.drop j = (m.take j ++ [b]) ++ m.drop j := by
    simp
  rw [hcons, List.drop_append_of_le_length (by simp; omega),
    List.drop_of_length_le (by simp [hlen])]
  simp [List.take_append_drop]

/-- Re-inserting the removed element at its position restores the list. -/
theorem spliceInsert_spliceRemove {α : Type} {l : List α} {i : ℕ} {a : α}
    (h : l.get? i = some a) : spliceInsert (spliceRemove l i) i a = l := by
  have hi : i < l.length := lt_length_of_get h
  have hlen : (l.take i).length = i := by
    simp [List.length_take, Nat.min_eq_left (Nat.le_of_lt hi)]
  unfold spliceInsert spliceRemove
  rw [List.take_append_of_le_length (by omega),
    List.take_of_length_le (by omega),
    List.drop_append_of_le_length (by omega),
    List.drop_of_length_le (by omega)]
  simpa using take_cons_drop_of_get h

/-- C1's core list fact for `reorder-object`: moving an element from `i` to
`j` and then from `j` back to `i` restores the list, for in-range indices. -/
theorem jsReorder_jsReorder {α : Type} {l : List α} {i j : ℕ}
    (hi : i < l.length) (hj : j < l.length) :
    jsReorder (jsReorder l i j) j i = l := by
  obtain ⟨a, ha⟩ : ∃ a, l.get? i = some a := by
    cases hga : l.get? i with
    | none => rw [List.get?_eq_none] at hga; omega
    | some a => exact ⟨a, rfl⟩
  have hmlen : (spliceRemove l i).length = l.length - 1 :=
    length_spliceRemove hi
  have hjm : j ≤ (spliceRemove l i).length := by omega
  unfold jsReorder
  rw [ha]
  simp only [get_spliceInsert hjm, spliceRemove_spliceInsert hjm]
  exact spliceInsert_spliceRemove ha

/-- Object patches never change the id (`id` is not a patchable slot). -/
theorem applyPatch_id (p : ObjPatch) (o : VectorObject) :
    (applyPatch p o).id = o.id := by
  cases o <;> rfl

/-- Layer patches never change the id. -/
theorem layer_applyPatch_id (p : LayerPatch) (l : VectorLayer) :
    (l.applyPatch p).id = l.id := rfl

/-- Two per-layer object-list updates that cancel on every matching layer
cancel on the whole layer list (the shape shared by the four object-level
operations). -/
theorem map_layerUpdate_inverse (lid : String)
    (u v : List VectorObject → List VectorObject) (layers : List VectorLayer)
    (h : ∀ layer ∈ layers, layer.id = lid → v (u layer.objects) = layer.objects) :
    (layers.map (fun layer =>
        if layer.id = lid then { layer with objects := u layer.objects }
        else layer)).map
      (fun layer =>
        if layer.id = lid then { layer with objects := v layer.objects }
        else layer) = layers := by
  rw [List.map_map]
  conv_rhs => rw [← List.map_id layers]
  refine List.map_congr_left ?_
  intro layer hmem
  by_cases hid : layer.id = lid
  · simp only [Function.comp_apply, if_pos hid, h layer hmem hid, List.map_id]
    rfl
  · simp only [Function.comp_apply, if_neg hid, List.map_id]
    rfl

mutual

/-- C1's core step: undoing a well-formed operation right after applying it
forward restores the layer list exactly. -/
theorem reverse_forward_op (op : HistoryOperation) (layers : List VectorLayer)
    (h : wfOperation op layers) :
    applyOperationReverse op (applyOperationForward op layers) = layers := by
  cases op with
  | addObject layerId object index =>
      simp only [applyOperationForward, applyOperationReverse]
      refine map_layerUpdate_inverse layerId
        (fun objs => spliceInsert objs index object)
        (fun objs => objs.filter (fun o => o.id ≠ object.id)) layers ?_
      intro layer hmem hid
      refine filter_spliceInsert index (by simp) ?_
      intro o ho
      simpa using h layer hmem hid o ho
  | removeObject layerId object index =>
      simp only [applyOperationForward, applyOperationReverse]
      refine map_layerUpdate_inverse layerId
        (fun objs => objs.filter (fun o => o.id ≠ object.id))
        (fun objs => spliceInsert objs index object) layers ?_
      intro layer hmem hid
      obtain ⟨hget, htake, hdrop⟩ := h layer hmem hid
      refine spliceInsert_filter hget (by simp) ?_ ?_
      · intro o ho; simpa using htake o ho
      · intro o ho; simpa using hdrop o ho
  | modifyObject objectId layerId before after =>
      simp only [applyOperationForward, applyOperationReverse]
      refine map_layerUpdate_inverse layerId
        (fun objs => objs.map (fun o =>
          if o.id = objectId then applyPatch after o else o))
        (fun objs => objs.map (fun o =>
          if o.id = objectId then applyPatch before o else o)) layers ?_
      intro layer hmem hid
      simp only [List.map_map]
      conv_rhs => rw [← List.map_id layer.objects]
      refine List.map_congr_left ?_
      intro o ho
      by_cases hoid : o.id = objectId
      · simp only [Function.comp_apply, if_pos hoid, applyPatch_id, hoid,
          ite_true, List.map_id, id_eq]
        exact h layer hmem hid o ho hoid
      · simp only [Function.comp_apply, if_neg hoid, List.map_id, id_eq]
  | reorderObject layerId fromIndex toIndex =>
      simp only [applyOperationForward, applyOperationReverse]
      refine map_layerUpdate_inverse layerId
        (fun objs => jsReorder objs fromIndex toIndex)
        (fun objs => jsReorder objs toIndex fromIndex) layers ?_
      intro layer hmem hid
      obtain ⟨h1, h2⟩ := h layer hmem hid
      exact jsReorder_jsReorder h1 h2
  | addLayer layer index =>
      simp only [applyOperationForward, applyOperationReverse]
      refine filter_spliceInsert index (by simp) ?_
      intro l hl
      simpa using h l hl
  | removeLayer layer index =>
      simp only [applyOperationForward, applyOperationReverse]
      obtain ⟨hget, htake, hdrop⟩ := h
      refine spliceInsert_filter hget (by simp) ?_ ?_
      · intro l hl; simpa using htake l hl
      · intro l hl; simpa using hdrop l hl
  | modifyLayer layerId before after =>
      simp only [applyOperationForward, applyOperationReverse]
      rw [List.map_map]
      conv_rhs => rw [← List.map_id layers]
      refine List.map_congr_left ?_
      intro l hl
      by_cases hid : l.id = layerId
      · simp only [Function.comp_apply, if_pos hid, layer_applyPatch_id,
          ite_true, id_eq]
        exact h l hl hid
      · simp only [Function.comp_apply, if_neg hid, id_eq]
  | batch operations =>
      simp only [applyOperationForward, applyOperationReverse]
      exact reverse_forward_ops operations layers h

/-- Reversing a well-formed operation list (in reverse order) after applying
it forward restores the layer list. -/
theorem reverse_forward_ops (operations : List HistoryOperation)
    (layers : List VectorLayer) (h : wfOperations operations layers) :
    applyOperationsReverse operations
      (applyOperationsForward operations layers) = layers := by
  match operations with
  | [] => rfl
  | op :: rest =>
      obtain ⟨h1, h2⟩ := h
      show applyOperationReverse op (applyOperationsReverse rest
        (applyOperationsForward rest (applyOperationForward op layers))) = layers
      rw [reverse_forward_ops rest (applyOperationForward op layers) h2]
      exact reverse_forward_op op layers h1

end
/-- Folding entries distributes over append. -/
theorem applyEntriesForward_append (es1 es2 : List HistoryEntry)
    (layers : List VectorLayer) :
    applyEntriesForward (es1 ++ es2) layers =
      applyEntriesForward es2 (applyEntriesForward es1 layers) := by
  induction es1 generalizing layers with
  | nil => rfl
  | cons e rest ih => simp [applyEntriesForward, ih]

/-- Well-formedness of appended entry lists splits sequentially. -/
theorem wfEntries_append (es1 es2 : List HistoryEntry)
    (layers : List VectorLayer) :
    wfEntries (es1 ++ es2) layers ↔
      wfEntries es1 layers ∧ wfEntries es2 (applyEntriesForward es1 layers) := by
  induction es1 generalizing layers with
  | nil => simp [wfEntries, applyEntriesForward]
  | cons e rest ih => simp [wfEntries, applyEntriesForward, ih, and_assoc]

/-- One undo considered at cursor position `es.length` inside the history
`es ++ e :: rest`: it applies `e` in reverse and decrements the cursor. -/
theorem undo_step (s : DocumentState) (es rest : List HistoryEntry)
    (e : HistoryEntry) (hhist : s.history = es ++ e :: rest)
    (hidx : s.historyIndex = (es.length : ℤ)) :
    s.undo = { s with layers := applyOperationsReverse e.operations s.layers,
                      historyIndex := (es.length : ℤ) - 1 } := by
  unfold DocumentState.undo
  rw [if_neg (by omega)]
  have hget : s.history.get? s.historyIndex.toNat = some e := by
    rw [hhist, hidx]
    simp only [Int.toNat_ofNat]
    rw [List.get?_append_right (le_refl _)]
    simp
  rw [hget, hidx]

/-- One redo considered at cursor position `pre.length − 1` inside the
history `pre ++ e :: rest`: it applies `e` forward and increments the
cursor. -/
theorem redo_step (s : DocumentState) (pre rest : List HistoryEntry)
    (e : HistoryEntry) (hhist : s.history = pre ++ e :: rest)
    (hidx : s.historyIndex = (pre.length : ℤ) - 1) :
    s.redo = { s with layers := applyOperationsForward e.operations s.layers,
                      historyIndex := (pre.length : ℤ) } := by
  unfold DocumentState.redo
  have hlen : s.history.length = pre.length + 1 + rest.length := by
    simp [hhist]; omega
  rw [if_neg (by rw [hlen]; omega)]
  have hget : s.history.get? (s.historyIndex + 1).toNat = some e := by
    rw [hhist, hidx]
    have : ((pre.length : ℤ) - 1 + 1).toNat = pre.length := by omega
    rw [this, List.get?_append_right (le_refl _)]
    simp
  rw [hget]
  have h2 : s.historyIndex + 1 = (pre.length : ℤ) := by omega
  rw [h2]

/-- Undoing `es.length` times from the top of a well-formed applied prefix
`es` restores the base layer list and parks the cursor at −1; every other
field (history included) is untouched. -/
theorem undo_iterate (L0 : List VectorLayer) (es : List HistoryEntry) :
    ∀ (rest : List HistoryEntry) (s : DocumentState),
      wfEntries es L0 →
      s.history = es ++ rest →
      s.historyIndex = (es.length : ℤ) - 1 →
      s.layers = applyEntriesForward es L0 →
      DocumentState.undo^[es.length] s =
        { s with layers := L0, historyIndex := -1 } := by
  induction es using List.reverseRecOn with
  | nil =>
      intro rest s _ _ hidx hlay
      simp only [List.length_nil, Function.iterate_zero, id_eq]
      cases s
      simp_all [applyEntriesForward]
  | append_singleton es e ih =>
      intro rest s hwf hhist hidx hlay
      have hwf2 := (wfEntries_append es [e] L0).mp hwf
      have hstep : s.undo =
          { s with layers := applyOperationsReverse e.operations s.layers,
                   historyIndex := (es.length : ℤ) - 1 } := by
        refine undo_step s es rest e ?_ ?_
        · simpa using hhist
        · simp at hidx; omega
      have hrev : applyOperationsReverse e.operations s.layers =
          applyEntriesForward es L0 := by
        rw [hlay, applyEntriesForward_append]
        simp only [applyEntriesForward]
        exact reverse_forward_ops e.operations (applyEntriesForward es L0)
          (by simpa [wfEntries] using hwf2.2.1)
      have hlen : (es ++ [e]).length = es.length + 1 := by simp
      rw [hlen, Function.iterate_succ_apply, hstep]
      rw [ih (e :: rest) _ hwf2.1 (by simpa using hhist) (by simp) (by simpa using hrev)]

/-- Redoing `es.length` times from cursor position `pre.length − 1` replays
`es` forward and moves the cursor past it; every other field is untouched. -/
theorem redo_iterate (es : List HistoryEntry) :
    ∀ (pre rest : List HistoryEntry) (L : List VectorLayer)
      (s : DocumentState),
      s.history = pre ++ es ++ rest →
      s.historyIndex = (pre.length : ℤ) - 1 →
      s.layers = L →
      DocumentState.redo^[es.length] s =
        { s with layers := applyEntriesForward es L,
                 historyIndex := (pre.length : ℤ) + es.length - 1 } := by
  induction es with
  | nil =>
      intro pre rest L s _ hidx hlay
      simp only [List.length_nil, Function.iterate_zero, id_eq]
      cases s
      simp_all [applyEntriesForward]
  | cons e rest2 ih =>
      intro pre rest L s hhist hidx hlay
      have hstep : s.redo =
          { s with layers := applyOperationsForward e.operations s.layers,
                   historyIndex := (pre.length : ℤ) } := by
        refine redo_step s pre (rest2 ++ rest) e ?_ hidx
        simpa using hhist
      have hlen : (e :: rest2).length = rest2.length + 1 := rfl
      rw [hlen, Function.iterate_succ_apply, hstep]
      rw [ih (pre ++ [e]) rest (applyOperationsForward e.operations L) _
        (by simp [hhist]) (by simp) (by simp [hlay])]
      simp only [applyEntriesForward, List.length_append, List.length_singleton]
      congr 1
      push_cast
      omega

/-- The conditional undo/redo inverse law of the store's history engine: if
the history holds exactly the entries `es`, *sequentially well-formed* over
the base layer list `L0` (each operation's recorded data matches the state
its reversal is applied to), the cursor sits on the newest entry, and the
layers are the result of applying `es` forward from `L0`, then `es.length`
undos restore the pre-sequence layer list exactly and park the cursor at −1,
and `es.length` redos after that restore the post-sequence state exactly.
Not every pusher in the program records well-formed entries — the
multi-delete gesture does not (see the C1 theorem) — so this law is the
correctness of the undo *algorithm*, conditional on faithful recording. -/
theorem undo_redo_inverse (L0 : List VectorLayer) (es : List HistoryEntry)
    (s : DocumentState) (hwf : wfEntries es L0) (hhist : s.history = es)
    (hidx : s.historyIndex = (es.length : ℤ) - 1)
    (hlay : s.layers = applyEntriesForward es L0) :
    DocumentState.undo^[es.length] s =
      { s with layers := L0, historyIndex := -1 } ∧
    DocumentState.redo^[es.length] (DocumentState.undo^[es.length] s) = s := by
  have hundo := undo_iterate L0 es [] s hwf (by simpa using hhist) hidx hlay
  refine ⟨hundo, ?_⟩
  rw [hundo]
  rw [redo_iterate es [] [] L0 _ (by simpa using hhist) (by simp) (by simp)]
  cases s
  simp_all

/-- The conditional inverse law exercised concretely: one undo removes the
created rectangle and parks the cursor, one redo restores the state
exactly. -/
theorem undo_redo_inverse_witness :
    DocumentState.undo^[1] c1State =
      { c1State with layers := [createLayer "L1" "Layer 1"],
                     historyIndex := -1 } ∧
    DocumentState.redo^[1] (DocumentState.undo^[1] c1State) = c1State :=
  undo_redo_inverse [createLayer "L1" "Layer 1"] [c1Entry] c1State
    (by simp [wfEntries, wfOperations, wfOperation, createLayer, c1Entry])
    rfl (by decide) rfl

/-- C3 — History push truncation and capacity eviction: a push with a
non-empty operation list keeps exactly the entries up to the cursor plus the
new entry (dropping the oldest one if that exceeds the capacity), leaves the
cursor on the newest entry (a valid index), makes `canUndo` true and
`canRedo` false, and turns `redo` into a no-op. -/
theorem pushHistory_spec (entryId : String) (ts : ℕ) (descr : String)
    (ops : List HistoryOperation) (s : DocumentState) (hops : ops ≠ [])
    (hmax : 1 ≤ s.maxHistoryLength)
    (hlen : s.history.length ≤ s.maxHistoryLength) :
    let s' := s.pushHistory entryId ts descr ops
    let t := s.history.take (s.historyIndex + 1).toNat
    let e : HistoryEntry := ⟨entryId, ops, ts, descr⟩
    (t.length + 1 ≤ s.maxHistoryLength → s'.history = t ++ [e]) ∧
    (s.maxHistoryLength < t.length + 1 → s'.history = t.drop 1 ++ [e]) ∧
    s'.historyIndex = (s'.history.length : ℤ) - 1 ∧
    s'.history.getLast? = some e ∧
    s'.history.length ≤ s.maxHistoryLength ∧
    s'.canUndo = true ∧
    s'.canRedo = false ∧
    s'.redo = s' := by
  intro s' t e
  have htlen : t.length ≤ s.history.length := by
    simpa [t] using List.length_take_le (s.historyIndex + 1).toNat s.history
  have hs' : s' = if (t ++ [e]).length > s.maxHistoryLength then
      { s with history := (t ++ [e]).drop 1,
               historyIndex := ((t ++ [e]).drop 1).length - 1 }
    else
      { s with history := t ++ [e],
               historyIndex := ((t ++ [e]).length : ℤ) - 1 } := by
    have hie : ops.isEmpty = false := by simp [List.isEmpty_iff, hops]
    simp only [s', DocumentState.pushHistory, hie, Bool.false_eq_true,
      if_false]
  by_cases hover : (t ++ [e]).length > s.maxHistoryLength
  · have hne : 1 ≤ t.length := by simp at hover; omega
    rw [if_pos hover] at hs'
    have hdrop : (t ++ [e]).drop 1 = t.drop 1 ++ [e] :=
      List.drop_append_of_le_length hne
    have hdlen : (t.drop 1 ++ [e]).length = t.length := by simp; omega
    refine ⟨fun hc => by simp at hover; omega, fun _ => by rw [hs', hdrop],
      ?_, ?_, ?_, ?_, ?_, ?_⟩
    · rw [hs', hdrop, hdlen]
    · rw [hs', hdrop]; simp
    · rw [hs', hdrop, hdlen]; omega
    · rw [hs', hdrop]
      simp only [DocumentState.canUndo, hdlen, ge_iff_le]
      rw [decide_eq_true_eq]
      omega
    · rw [hs', hdrop]
      simp only [DocumentState.canRedo, hdlen]
      rw [decide_eq_false_iff_not]
      omega
    · rw [hs', hdrop]
      simp only [DocumentState.redo, hdlen]
      rw [if_pos (by omega)]
  · rw [if_neg hover] at hs'
    simp only [List.length_append, List.length_singleton, gt_iff_lt,
      not_lt] at hover
    refine ⟨fun _ => by rw [hs'], fun hc => by omega, ?_, ?_, ?_, ?_, ?_, ?_⟩
    · rw [hs']
    · rw [hs']; simp
    · rw [hs']; simpa using hover
    · rw [hs']
      simp only [DocumentState.canUndo, ge_iff_le]
      rw [decide_eq_true_eq]
      simp
    · rw [hs']
      simp only [DocumentState.canRedo]
      rw [decide_eq_false_iff_not]
      simp
    · rw [hs']
      simp only [DocumentState.redo]
      rw [if_pos (by simp)]

/-- Witness for C3: pushing one more entry onto the one-entry history leaves
undo available and redo unavailable. -/
theorem pushHistory_spec_witness :
    (c1State.pushHistory "h2" 5 "Nudge" [.reorderObject "L1" 0 0]).canUndo
      = true ∧
    (c1State.pushHistory "h2" 5 "Nudge" [.reorderObject "L1" 0 0]).canRedo
      = false := by
  have h := pushHistory_spec "h2" 5 "Nudge" [.reorderObject "L1" 0 0] c1State
    (by simp) (by norm_num [c1State]) (by norm_num [c1State])
  exact ⟨h.2.2.2.2.2.1, h.2.2.2.2.2.2.1⟩

/-- A list in which no object (recursively, per `findObjectInList`) has the
id contains no top-level object with the id. -/
theorem findObjectInList_none {objs : List VectorObject} {oid : String}
    (h : findObjectInList objs oid = none) : ∀ o ∈ objs, o.id ≠ oid := by
  induction objs with
  | nil => simp
  | cons o rest ih =>
      intro x hx
      rw [findObjectInList] at h
      by_cases ho : o.id = oid
      · rw [if_pos ho] at h
        simp at h
      · rw [if_neg ho] at h
        cases hfc : findInChildren o oid with
        | some f => rw [hfc] at h; simp at h
        | none =>
            rw [hfc] at h
            rcases List.mem_cons.mp hx with rfl | hx'
            · exact ho
            · exact ih h x hx'

/-- C9 counterexample — the claim asserts that `removeObject` of an id that
occurs in no layer leaves the selection unchanged; but on a state whose
selection holds the dangling id "ghost" (reachable by undoing an
add-object), `removeObject "ghost"` clears it from the selection. -/
theorem stale_removeObject_counterexample :
    c9State.getObject "ghost" = none ∧
    c9State.selectedObjectIds = ["ghost"] ∧
    (c9State.removeObject "ghost").selectedObjectIds = [] := by
  refine ⟨rfl, rfl, ?_⟩
  simp [DocumentState.removeObject, c9State]

/-- C9 amended — stale-id mutations never fault and touch nothing except
that `removeObject` also prunes the stale id from the selection:
`updateObject` of an absent id is a complete no-op; `removeObject` of an
absent id leaves layers, active layer, history and cursor unchanged and
filters the id out of the selection — so it is a complete no-op exactly when
the id was not selected. -/
theorem stale_id_mutations (s : DocumentState) (objectId : String)
    (h : s.getObject objectId = none) :
    (∀ updates : ObjPatch, s.updateObject objectId updates = s) ∧
    ((s.removeObject objectId).layers = s.layers ∧
     (s.removeObject objectId).activeLayerId = s.activeLayerId ∧
     (s.removeObject objectId).history = s.history ∧
     (s.removeObject objectId).historyIndex = s.historyIndex ∧
     (s.removeObject objectId).selectedObjectIds =
       s.selectedObjectIds.filter (fun id => id ≠ objectId)) ∧
    (objectId ∉ s.selectedObjectIds → s.removeObject objectId = s) := by
  have hlayer : ∀ layer ∈ s.layers, ∀ o ∈ layer.objects, o.id ≠ objectId := by
    intro layer hl
    have hnone : findObjectInList layer.objects objectId = none := by
      unfold DocumentState.getObject at h
      rw [List.findSome?_eq_none] at h
      exact h layer hl
    exact findObjectInList_none hnone
  have hfilter : ∀ layer ∈ s.layers,
      layer.objects.filter (fun o => o.id ≠ objectId) = layer.objects := by
    intro layer hl
    refine List.filter_eq_self.mpr ?_
    intro o ho
    simpa using hlayer layer hl o ho
  refine ⟨?_, ⟨?_, rfl, rfl, rfl, rfl⟩, ?_⟩
  · intro updates
    unfold DocumentState.updateObject
    have hlay : s.layers.map (fun layer =>
        { layer with objects := layer.objects.map (fun o =>
            if o.id = objectId then applyPatch updates o else o) }) =
        s.layers := by
      conv_rhs => rw [← List.map_id s.layers]
      refine List.map_congr_left ?_
      intro layer hl
      have hobj : layer.objects.map (fun o =>
          if o.id = objectId then applyPatch updates o else o) =
          layer.objects := by
        conv_rhs => rw [← List.map_id layer.objects]
        refine List.map_congr_left ?_
        intro o ho
        rw [if_neg (hlayer layer hl o ho)]
        rfl
      rw [hobj]
      rfl
    rw [hlay]
  · unfold DocumentState.removeObject
    show s.layers.map _ = s.layers
    conv_rhs => rw [← List.map_id s.layers]
    refine List.map_congr_left ?_
    intro layer hl
    rw [hfilter layer hl]
    rfl
  · intro hnotmem
    unfold DocumentState.removeObject
    have hsel : s.selectedObjectIds.filter (fun id => id ≠ objectId) =
        s.selectedObjectIds := by
      refine List.filter_eq_self.mpr ?_
      intro x hx
      have hxne : x ≠ objectId := fun hxeq => hnotmem (hxeq ▸ hx)
      simp [hxne]
    rw [hsel]
    have hlay2 : s.layers.map (fun layer =>
        { layer with objects :=
            layer.objects.filter (fun o => o.id ≠ objectId) }) = s.layers := by
      conv_rhs => rw [← List.map_id s.layers]
      refine List.map_congr_left ?_
      intro layer hl
      rw [hfilter layer hl]
      rfl
    rw [hlay2]

/-- Witness for C9's amended theorem: mutating the absent id "nope" on a
one-rectangle document is a complete no-op for both primitives. -/
theorem stale_id_mutations_witness :
    c1State.updateObject "nope" {} = c1State ∧
    c1State.removeObject "nope" = c1State := by
  have h := stale_id_mutations c1State "nope" rfl
  exact ⟨h.1 {}, h.2.2 (by simp [c1State])⟩

/-- `jsReorder` permutes the list (or leaves it unchanged when the source
index is out of range). -/
theorem jsReorder_perm {α : Type} (l : List α) (i j : ℕ) :
    (jsReorder l i j).Perm l := by
  unfold jsReorder
  cases hget : l.get? i with
  | none => exact List.Perm.refl l
  | some a =>
      have h4 : l.take i ++ a :: l.drop (i + 1) = l :=
        take_cons_drop_of_get hget
      have h3 : (l.take i ++ a :: l.drop (i + 1)).Perm
          (a :: (l.take i ++ l.drop (i + 1))) := List.perm_middle
      have h2 : (a :: spliceRemove l i).Perm l := by
        unfold spliceRemove
        rw [h4] at h3
        exact h3.symm
      have h1 : (spliceInsert (spliceRemove l i) j a).Perm
          (a :: spliceRemove l i) := by
        unfold spliceInsert
        have h5 := @List.perm_middle α a ((spliceRemove l i).take j)
          ((spliceRemove l i).drop j)
        rwa [List.take_append_drop] at h5
      exact h1.trans h2

/-- Membership survives a clamped insert. -/
theorem mem_spliceInsert_of_mem {α : Type} {l : List α} {x : α} (i : ℕ)
    (a : α) (h : x ∈ l) : x ∈ spliceInsert l i a := by
  unfold spliceInsert
  rw [← List.take_append_drop i l] at h
  rcases List.mem_append.mp h with h1 | h2
  · exact List.mem_append_left _ h1
  · exact List.mem_append_right _ (List.mem_cons_of_mem a h2)

/-- Layer patches do not touch the object list. -/
theorem layer_applyPatch_objects (p : LayerPatch) (l : VectorLayer) :
    (l.applyPatch p).objects = l.objects := rfl

/-- `pushHistory` touches only the history fields. -/
theorem pushHistory_preserves (eid : String) (ts : ℕ) (d : String)
    (ops : List HistoryOperation) (s : DocumentState) :
    (s.pushHistory eid ts d ops).layers = s.layers ∧
    (s.pushHistory eid ts d ops).selectedObjectIds = s.selectedObjectIds ∧
    (s.pushHistory eid ts d ops).activeLayerId = s.activeLayerId := by
  unfold DocumentState.pushHistory
  refine ⟨?_, ?_, ?_⟩ <;>
    · split
      · rfl
      · dsimp only
        split <;> rfl

/-- C2 counterexample — the claim asserts selection validity after every
operation including `undo` and the selection primitives; but undoing the
creation of the selected rectangle leaves the dangling id "r1" selected (the
reverse of `add-object` never touches the selection), and `setSelection`
accepts an id that no object has. -/
theorem selection_validity_counterexample :
    c1State.selectedObjectIds = ["r1"] ∧
    c1State.getObject "r1" = some c1Rect ∧
    (c1State.undo).selectedObjectIds = ["r1"] ∧
    (c1State.undo).getObject "r1" = none ∧
    (c1State.setSelection ["ghost"]).getObject "ghost" = none ∧
    (c1State.setSelection ["ghost"]).selectedObjectIds = ["ghost"] :=
  ⟨rfl, rfl, rfl, rfl, rfl, rfl⟩

/-- Witness transport through a per-layer map: if the update function keeps
the witness object in its layer, validity survives the map. -/
theorem mem_objects_map_update {f : VectorLayer → VectorLayer}
    {L : List VectorLayer} {layer : VectorLayer} {o : VectorObject}
    {id : String} (hl : layer ∈ L) (ho : o ∈ layer.objects)
    (hoid : VectorObject.id o = id)
    (hobj : ∀ l, o ∈ l.objects → o ∈ (f l).objects) :
    ∃ layer' ∈ L.map f, ∃ o' ∈ layer'.objects, VectorObject.id o' = id :=
  ⟨f layer, List.mem_map_of_mem f hl, o, hobj layer ho, hoid⟩

/-- C2 amended — selection validity (every selected id names a top-level
object of some layer) is preserved by every store operation except `undo`,
`redo`, `setSelection`, and `selectObject` of a nonexistent id: the
layer/object mutations keep or prune referenced objects and `removeObject`
prunes the selection, the document operations clear the selection, and
`selectObject` preserves validity whenever the selected id exists.  (`undo`,
`redo` and the unvalidated selection setters can break the invariant: see
the counterexample.) -/
theorem selection_validity_preserved (s : DocumentState)
    (hv : selectionValid s) :
    (∀ lid name, selectionValid (s.addLayer lid name)) ∧
    (∀ lid, selectionValid (s.removeLayer lid)) ∧
    (∀ lid, selectionValid (s.setActiveLayer lid)) ∧
    (∀ lid p, selectionValid (s.updateLayer lid p)) ∧
    (∀ i j, selectionValid (s.reorderLayer i j)) ∧
    (∀ lid o idx, selectionValid (s.addObject lid o idx)) ∧
    (∀ x, selectionValid (s.removeObject x)) ∧
    (∀ x p, selectionValid (s.updateObject x p)) ∧
    (∀ lid i j, selectionValid (s.reorderObject lid i j)) ∧
    (∀ x, selectionValid (s.deselectObject x)) ∧
    selectionValid s.deselectAll ∧
    selectionValid s.selectAll ∧
    (∀ eid ts d ops, selectionValid (s.pushHistory eid ts d ops)) ∧
    selectionValid s.clearHistory ∧
    (∀ lid, selectionValid (s.newDocument lid)) ∧
    (∀ ls aid, selectionValid (s.loadDocument ls aid)) ∧
    (∀ x add, (∃ layer ∈ s.layers, ∃ o ∈ layer.objects,
        VectorObject.id o = x) → selectionValid (s.selectObject x add)) := by
  refine ⟨?_, ?_, ?_, ?_, ?_, ?_, ?_, ?_, ?_, ?_, ?_, ?_, ?_, ?_, ?_, ?_, ?_⟩
  · -- addLayer
    intro lid name id hid
    obtain ⟨layer, hl, o, ho, hoid⟩ := hv id hid
    exact ⟨layer, List.mem_append_left _ hl, o, ho, hoid⟩
  · -- removeLayer
    intro lid
    unfold DocumentState.removeLayer
    split
    · exact hv
    · intro id hid
      simp at hid
  · -- setActiveLayer
    exact fun lid => hv
  · -- updateLayer
    intro lid p id hid
    obtain ⟨layer, hl, o, ho, hoid⟩ := hv id hid
    refine ⟨if layer.id = lid then layer.applyPatch p else layer,
      List.mem_map_of_mem _ hl, o, ?_, hoid⟩
    split
    · rw [layer_applyPatch_objects]; exact ho
    · exact ho
  · -- reorderLayer
    intro i j id hid
    obtain ⟨layer, hl, o, ho, hoid⟩ := hv id hid
    exact ⟨layer, ((jsReorder_perm s.layers i j).mem_iff).mpr hl, o, ho, hoid⟩
  · -- addObject
    intro lid onew idx id hid
    obtain ⟨layer, hl, o, ho, hoid⟩ := hv id hid
    refine mem_objects_map_update hl ho hoid ?_
    intro l hol
    dsimp only
    by_cases hlid : l.id ≠ lid
    · rw [if_pos hlid]; exact hol
    · rw [if_neg hlid]
      cases idx with
      | some i => exact mem_spliceInsert_of_mem i onew hol
      | none => exact List.mem_append_left _ hol
  · -- removeObject
    intro x id hid
    have hmem := List.mem_filter.mp hid
    obtain ⟨layer, hl, o, ho, hoid⟩ := hv id hmem.1
    have hne : id ≠ x := by simpa using hmem.2
    refine ⟨{ layer with objects :=
        layer.objects.filter (fun o => o.id ≠ x) },
      List.mem_map_of_mem _ hl, o, ?_, hoid⟩
    refine List.mem_filter.mpr ⟨ho, ?_⟩
    simp only [decide_eq_true_eq, ne_eq, decide_not, Bool.not_eq_false']
    rw [Bool.not_eq_true']
    rw [decide_eq_false_iff_not]
    rw [hoid]
    exact hne
  · -- updateObject
    intro x p id hid
    obtain ⟨layer, hl, o, ho, hoid⟩ := hv id hid
    refine ⟨{ layer with objects := layer.objects.map (fun o =>
        if o.id = x then applyPatch p o else o) },
      List.mem_map_of_mem _ hl,
      if o.id = x then applyPatch p o else o,
      List.mem_map_of_mem _ ho, ?_⟩
    split
    · rw [applyPatch_id]; exact hoid
    · exact hoid
  · -- reorderObject
    intro lid i j id hid
    obtain ⟨layer, hl, o, ho, hoid⟩ := hv id hid
    refine mem_objects_map_update hl ho hoid ?_
    intro l hol
    dsimp only
    by_cases hlid : l.id ≠ lid
    · rw [if_pos hlid]; exact hol
    · rw [if_neg hlid]
      exact ((jsReorder_perm l.objects i j).mem_iff).mpr hol
  · -- deselectObject
    intro x id hid
    exact hv id (List.mem_filter.mp hid).1
  · -- deselectAll
    intro id hid
    simp [DocumentState.deselectAll] at hid
  · -- selectAll
    unfold DocumentState.selectAll
    cases hfind : s.layers.find? (fun l => l.id = s.activeLayerId) with
    | none => exact hv
    | some activeLayer =>
        intro id hid
        simp only [List.mem_map] at hid
        obtain ⟨o, ho, hoid⟩ := hid
        exact ⟨activeLayer, List.mem_of_find?_eq_some hfind, o,
          List.mem_of_mem_filter ho, hoid⟩
  · -- pushHistory
    intro eid ts d ops id hid
    rw [(pushHistory_preserves eid ts d ops s).2.1] at hid
    obtain ⟨layer, hl, o, ho, hoid⟩ := hv id hid
    rw [(pushHistory_preserves eid ts d ops s).1]
    exact ⟨layer, hl, o, ho, hoid⟩
  · -- clearHistory
    exact hv
  · -- newDocument
    intro lid id hid
    simp [DocumentState.newDocument] at hid
  · -- loadDocument
    intro ls aid id hid
    simp [DocumentState.loadDocument] at hid
  · -- selectObject with an existing id
    intro x add hex id hid
    have hlay : (s.selectObject x add).layers = s.layers := by
      unfold DocumentState.selectObject
      split
      · split <;> rfl
      · rfl
    rw [hlay]
    unfold DocumentState.selectObject at hid
    by_cases hadd : add = true
    · rw [if_pos hadd] at hid
      by_cases hcont : s.selectedObjectIds.contains x
      · rw [if_pos hcont] at hid
        exact hv id (List.mem_filter.mp hid).1
      · rw [if_neg hcont] at hid
        rcases List.mem_append.mp hid with hid1 | hid2
        · exact hv id hid1
        · have hidx : id = x := by simpa using hid2
          subst hidx
          exact hex
    · rw [if_neg hadd] at hid
      have hidx : id = x := by simpa using hid
      subst hidx
      exact hex

/-- Witness for C2's amended theorem on the one-rectangle document: removing
the selected object and clearing the selection both leave a valid
selection. -/
theorem selection_validity_preserved_witness :
    selectionValid (c1State.removeObject "r1") ∧
    selectionValid c1State.deselectAll := by
  have hlay : c1State.layers =
      [{ (createLayer "L1" "Layer 1") with objects := [c1Rect] }] := rfl
  have hv : selectionValid c1State := by
    intro id hid
    have hid' : id = "r1" := by simpa [c1State] using hid
    subst hid'
    refine ⟨{ (createLayer "L1" "Layer 1") with objects := [c1Rect] }, ?_,
      c1Rect, ?_, rfl⟩
    · rw [hlay]
      exact List.mem_singleton.mpr rfl
    · exact List.mem_singleton.mpr rfl
  have h := selection_validity_preserved c1State hv
  exact ⟨h.2.2.2.2.2.2.1 "r1", h.2.2.2.2.2.2.2.2.2.2.1⟩

/-- With pairwise-distinct layer ids, at most one layer matches a given
id. -/
theorem length_filter_id_le_one {L : List VectorLayer}
    (h : (L.map VectorLayer.id).Nodup) (lid : String) :
    (L.filter (fun l => l.id = lid)).length ≤ 1 := by
  induction L with
  | nil => simp
  | cons l rest ih =>
      simp only [List.map_cons, List.nodup_cons] at h
      obtain ⟨hnotin, hrest⟩ := h
      rw [List.filter_cons]
      by_cases hl : l.id = lid
      · have hnil : rest.filter (fun x => decide (x.id = lid)) = [] := by
          rw [List.filter_eq_nil_iff]
          intro x hx
          simp only [decide_eq_true_eq]
          intro hxid
          exact hnotin (hl ▸ hxid ▸ List.mem_map_of_mem VectorLayer.id hx)
        simp [hl, hnil]
      · rw [if_neg (by simpa using hl)]
        exact ih hrest

/-- Removing matching layers keeps at least one layer when ids are distinct
and there are at least two layers. -/
theorem one_le_length_filter_ne {L : List VectorLayer}
    (h : (L.map VectorLayer.id).Nodup) (lid : String) (hlen : 1 < L.length) :
    1 ≤ (L.filter (fun l => l.id ≠ lid)).length := by
  have hsum := List.length_eq_countP_add_countP (p := fun l => decide (l.id = lid)) L
  rw [List.countP_eq_length_filter, List.countP_eq_length_filter] at hsum
  have hone := length_filter_id_le_one h lid
  have hco : L.filter (fun a => decide (¬ decide (a.id = lid) = true)) =
      L.filter (fun l => l.id ≠ lid) := by
    refine List.filter_congr ?_
    intro x _
    simp
  rw [hco] at hsum
  omega

/-- C10 — `removeLayer` edge cases: with a single layer it is a no-op for
any id; with more than one layer (and the store's pairwise-distinct layer
ids) it drops exactly the matching layer, clears the whole selection, keeps
history and cursor, retains at least one layer, keeps the active layer when
another layer was removed, makes the last remaining layer active when the
active layer was removed, and always leaves an activeLayerId that names a
remaining layer provided it named a layer before. -/
theorem removeLayer_spec (s : DocumentState) (layerId : String)
    (hnodup : (s.layers.map VectorLayer.id).Nodup) :
    (s.layers.length ≤ 1 → s.removeLayer layerId = s) ∧
    (1 < s.layers.length →
      (s.removeLayer layerId).layers =
          s.layers.filter (fun l => l.id ≠ layerId) ∧
        (s.removeLayer layerId).selectedObjectIds = [] ∧
        (s.removeLayer layerId).history = s.history ∧
        (s.removeLayer layerId).historyIndex = s.historyIndex ∧
        1 ≤ (s.removeLayer layerId).layers.length ∧
        (s.activeLayerId ≠ layerId →
          (s.removeLayer layerId).activeLayerId = s.activeLayerId) ∧
        (s.activeLayerId = layerId →
          (s.removeLayer layerId).activeLayerId =
            (((s.layers.filter (fun l => l.id ≠ layerId)).getLast?).map
              VectorLayer.id).getD s.activeLayerId) ∧
        (s.activeLayerId ∈ s.layers.map VectorLayer.id →
          (s.removeLayer layerId).activeLayerId ∈
            (s.removeLayer layerId).layers.map VectorLayer.id)) := by
  constructor
  · intro hle
    unfold DocumentState.removeLayer
    rw [if_pos hle]
  · intro hgt
    have hifneg : ¬ s.layers.length ≤ 1 := by omega
    have hlen1 : 1 ≤ (s.layers.filter (fun l => l.id ≠ layerId)).length :=
      one_le_length_filter_ne hnodup layerId hgt
    unfold DocumentState.removeLayer
    rw [if_neg hifneg]
    dsimp only
    refine ⟨rfl, rfl, rfl, rfl, hlen1, ?_, ?_, ?_⟩
    · intro hne
      simp only [if_neg hne]
    · intro heq
      simp only [if_pos heq]
    · intro hmem
      by_cases hact : s.activeLayerId = layerId
      · simp only [if_pos hact]
        obtain ⟨last, hlast⟩ : ∃ last,
            (s.layers.filter (fun l => l.id ≠ layerId)).getLast? =
              some last := by
          cases hg : (s.layers.filter (fun l => l.id ≠ layerId)).getLast? with
          | none =>
              rw [List.getLast?_eq_none_iff] at hg
              rw [hg] at hlen1
              simp at hlen1
          | some a => exact ⟨a, rfl⟩
        rw [hlast]
        exact List.mem_map_of_mem VectorLayer.id (List.mem_of_getLast?_eq_some hlast)
      · simp only [if_neg hact]
        obtain ⟨l, hl, hlid⟩ := List.mem_map.mp hmem
        refine List.mem_map.mpr ⟨l, ?_, hlid⟩
        refine List.mem_filter.mpr ⟨hl, ?_⟩
        simp only [ne_eq, decide_not, Bool.not_eq_false']
        rw [Bool.not_eq_true']
        rw [decide_eq_false_iff_not]
        rw [hlid]
        exact hact

/-- Witness for C10: removing the active layer "B" of a two-layer document
keeps layer "A", clears the selection, and makes the last remaining layer
("A") active. -/
theorem removeLayer_spec_witness :
    (c10State.removeLayer "B").layers = [createLayer "A" "Layer 1"] ∧
    (c10State.removeLayer "B").selectedObjectIds = [] ∧
    (c10State.removeLayer "B").activeLayerId = "A" := by
  have h := (removeLayer_spec c10State "B" (by decide)).2 (by decide)
  refine ⟨?_, h.2.1, ?_⟩
  · rw [h.1]
    rfl
  · rw [h.2.2.2.2.2.2.1 rfl]
    rfl

/-- The object walk of the hit-tester equals "first visible, unlocked,
containing object of the (already reversed) list". -/
theorem hitTestObjectsTopDown_eq (pathHit : List PathSegment → Bool →
    Option Fill → Option StrokeStyle → Point2D → Bool) (point : Point2D)
    (lid : String) (objs : List VectorObject) :
    hitTestObjectsTopDown pathHit point lid objs =
      ((objs.filter (fun o => o.visible && !o.locked)).find?
        (fun o => hitTestObject pathHit point o)).map
        (fun o => { object := o, layerId := lid }) := by
  induction objs with
  | nil => rfl
  | cons o rest ih =>
      rw [hitTestObjectsTopDown, List.filter_cons]
      by_cases hv : (o.visible && !o.locked) = true
      · rw [if_pos hv, List.find?_cons]
        by_cases hh : hitTestObject pathHit point o = true
        · simp [hv, hh]
        · simp only [Bool.not_eq_true] at hh
          simp [hv, hh, ih]
      · simp only [Bool.not_eq_true] at hv
        simp [hv, ih]

/-- The layer walk of the hit-tester equals "first hit in the first visible,
unlocked layer of the (already reversed) list that contains one". -/
theorem hitTestLayersTopDown_eq (pathHit : List PathSegment → Bool →
    Option Fill → Option StrokeStyle → Point2D → Bool) (point : Point2D)
    (L : List VectorLayer) :
    hitTestLayersTopDown pathHit point L =
      (L.filter (fun l => l.visible && !l.locked)).findSome? (fun layer =>
        ((layer.objects.reverse.filter (fun o => o.visible && !o.locked)).find?
          (fun o => hitTestObject pathHit point o)).map
          (fun o => { object := o, layerId := layer.id })) := by
  induction L with
  | nil => rfl
  | cons layer rest ih =>
      rw [hitTestLayersTopDown, List.filter_cons]
      by_cases hv : (layer.visible && !layer.locked) = true
      · have hskip : (!layer.visible || layer.locked) = false := by
          simp only [Bool.and_eq_true, Bool.not_eq_true'] at hv
          simp [hv.1, hv.2]
        rw [if_neg (by simp [hskip]), if_pos hv, List.findSome?_cons]
        rw [hitTestObjectsTopDown_eq, ih]
        cases hfind : Option.map
            (fun o => ({ object := o, layerId := layer.id } : HitTestResult))
            (List.find? (fun o => hitTestObject pathHit point o)
              (List.filter (fun o => o.visible && !o.locked)
                layer.objects.reverse)) with
        | none => rfl
        | some r => rfl
      · simp only [Bool.and_eq_true, Bool.not_eq_true', not_and_or,
          Bool.not_eq_true, Bool.not_eq_false] at hv
        have hcond : (layer.visible && !layer.locked) = false := by
          rcases hv with h | h <;> simp [h]
        have hskip2 : (!layer.visible || layer.locked) = true := by
          rcases hv with h | h <;> simp [h]
        rw [if_pos (by simp [hskip2]), if_neg (by simp [hcond])]
        exact ih

/-- C4 — Hit-test order and filtering: `hitTestLayers` walks layers
top-to-bottom (reverse render order) skipping invisible or locked layers,
walks each layer's objects top-to-bottom skipping invisible or locked
objects, tests containment per variant in the point's local space with
groups recursing into children (all inside `hitTestObject`), and returns the
first match — equivalently, it equals the find-first formulation
`hitTestLayersSpec`; with no match it returns `none`. -/
theorem hitTestLayers_eq_spec (pathHit : List PathSegment → Bool →
    Option Fill → Option StrokeStyle → Point2D → Bool) (point : Point2D)
    (layers : List VectorLayer) :
    hitTestLayers pathHit point layers =
      hitTestLayersSpec pathHit point layers := by
  unfold hitTestLayers hitTestLayersSpec
  exact hitTestLayersTopDown_eq pathHit point layers.reverse

/-- C5 — Resize scale law: on the single selected 100×100 rectangle with
identity transform (anchor box (0,0,100,100)), dragging the bottom-right
handle to (150,50) yields width 150, height 50 at position (0,0), and
dragging the top-left handle to (−50,−50) yields position (−50,−50) and size
150×150; in general every handle's new bounds are clamped to at least 2×2,
and for a singleton selection the object's position is scaled relative to
the anchor origin by sx = newWidth/oldWidth and sy = newHeight/oldHeight. -/
theorem resize_scale_law :
    ((applyResize (c5Drag .br) c5Doc ⟨150, 50⟩).layers =
      [{ (createLayer "L1" "Layer 1") with objects :=
          [.rectangle ⟨"r1", "Rect", createTransform 0 0, none, none, 1,
            true, false⟩ 150 50 [0, 0, 0, 0]] }]) ∧
    ((applyResize (c5Drag .tl) c5Doc ⟨-50, -50⟩).layers =
      [{ (createLayer "L1" "Layer 1") with objects :=
          [.rectangle ⟨"r1", "Rect", ⟨-50, -50, 0, 1, 0, 1, 1⟩, none, none,
            1, true, false⟩ 150 150 [0, 0, 0, 0]] }]) ∧
    (∀ (h : HandleId) (ob : BoundingBox) (pt : Point2D),
      2 ≤ (resizeNewBounds h ob pt).width ∧
      2 ≤ (resizeNewBounds h ob pt).height) ∧
    (∀ (doc : DocumentState) (ds : DragState) (ob : BoundingBox)
      (h : HandleId) (pt : Point2D) (id : String) (origP : ObjPatch)
      (ox oy : ℚ) (obj : VectorObject),
      ds.origBounds = some ob → ds.handleId = some h →
      doc.selectedObjectIds = [id] →
      ds.origTransforms.lookup id = some (ox, oy) →
      ds.origProps.lookup id = some origP →
      doc.getObject id = some obj →
      0 < ob.width → 0 < ob.height →
      ∃ upd : ObjPatch, applyResize ds doc pt = doc.updateObject id upd ∧
        upd.transform? = some { obj.transform with
          x := (resizeNewBounds h ob pt).x +
            (ox - ob.x) * ((resizeNewBounds h ob pt).width / ob.width),
          y := (resizeNewBounds h ob pt).y +
            (oy - ob.y) * ((resizeNewBounds h ob pt).height / ob.height) }) := by
  refine ⟨?_, ?_, ?_, ?_⟩
  · norm_num [c5Doc, c5Rect, c5Drag, saveOriginals, applyResize,
      resizeNewBounds, DocumentState.getSelectedObjects, getWorldBounds,
      getLocalBounds, transformBounds, mergeBounds, localToWorld,
      createTransform, createLayer, extractResizeProps,
      DocumentState.getObject, findObjectInList, findInChildren,
      DocumentState.updateObject, applyPatch, ObjBase.applyPatch,
      spliceInsert, List.lookup, worldBoundsList, VectorObject.id,
      VectorObject.transform, VectorObject.base]
  · norm_num [c5Doc, c5Rect, c5Drag, saveOriginals, applyResize,
      resizeNewBounds, DocumentState.getSelectedObjects, getWorldBounds,
      getLocalBounds, transformBounds, mergeBounds, localToWorld,
      createTransform, createLayer, extractResizeProps,
      DocumentState.getObject, findObjectInList, findInChildren,
      DocumentState.updateObject, applyPatch, ObjBase.applyPatch,
      spliceInsert, List.lookup, worldBoundsList, VectorObject.id,
      VectorObject.transform, VectorObject.base]
  · intro h ob pt
    unfold resizeNewBounds
    cases h <;> constructor <;> (dsimp only; split <;> linarith)
  · intro doc ds ob h pt id origP ox oy obj hob hh hsel hlt hlp hget hw hht
    unfold applyResize
    rw [hob, hh, hsel]
    simp only [List.foldl_cons, List.foldl_nil]
    rw [hlp, hlt, hget]
    refine ⟨_, rfl, ?_⟩
    have hsx : (if ob.width > 0 then (resizeNewBounds h ob pt).width / ob.width
        else 1) = (resizeNewBounds h ob pt).width / ob.width := if_pos hw
    have hsy : (if ob.height > 0 then
        (resizeNewBounds h ob pt).height / ob.height else 1) =
        (resizeNewBounds h ob pt).height / ob.height := if_pos hht
    cases obj <;> simp only [hsx, hsy]

/-- Witness for C5's general law at the bottom-right scenario: the resize is
one `updateObject` whose transform patch scales the position by
(newWidth/oldWidth, newHeight/oldHeight) from the anchor origin. -/
theorem resize_scale_law_witness :
    ∃ upd : ObjPatch,
      applyResize (c5Drag .br) c5Doc ⟨150, 50⟩ =
        c5Doc.updateObject "r1" upd ∧
      upd.transform? = some { c5Rect.transform with
        x := (resizeNewBounds .br ⟨0, 0, 100, 100⟩ ⟨150, 50⟩).x +
          (0 - 0) * ((resizeNewBounds .br ⟨0, 0, 100, 100⟩ ⟨150, 50⟩).width /
            (100 : ℚ)),
        y := (resizeNewBounds .br ⟨0, 0, 100, 100⟩ ⟨150, 50⟩).y +
          (0 - 0) * ((resizeNewBounds .br ⟨0, 0, 100, 100⟩ ⟨150, 50⟩).height /
            (100 : ℚ)) } :=
  resize_scale_law.2.2.2 c5Doc (c5Drag .br) ⟨0, 0, 100, 100⟩ .br ⟨150, 50⟩
    "r1" (extractResizeProps c5Rect) 0 0 c5Rect
    (by norm_num [c5Drag, saveOriginals, c5Doc, c5Rect,
      DocumentState.getSelectedObjects, getWorldBounds, getLocalBounds,
      transformBounds, mergeBounds, localToWorld, createTransform,
      createLayer, worldBoundsList, VectorObject.id, VectorObject.transform,
      VectorObject.base])
    rfl rfl rfl rfl rfl (by norm_num) (by norm_num)

/-- Witness for C7's amended theorem: the unit boxes at (0,0) and (1/2,1/2)
overlap on an open set — (3/4, 3/4) is interior to both — and
`boundsIntersect` agrees. -/
theorem boundsIntersect_iff_open_overlap_witness :
    boundsIntersect ⟨0, 0, 1, 1⟩ ⟨1/2, 1/2, 1, 1⟩ = true := by
  rw [boundsIntersect_iff_open_overlap ⟨0, 0, 1, 1⟩ ⟨1/2, 1/2, 1, 1⟩
    (by norm_num) (by norm_num) (by norm_num) (by norm_num)]
  exact ⟨⟨3/4, 3/4⟩, by norm_num, by norm_num⟩

/-- C1 — the undo/redo inverse law fails in the program as shipped: the
Delete-key handler records every `remove-object` index against the
pre-removal state, so deleting a and c from the layer [a, b, c, d] pushes
the entry [remove a@0, remove c@2]; undoing that entry re-inserts c at the
stale index 2 of the two-element list [b, d] (clamped to an append) and
then a at 0, producing [a, b, d, c] instead of the pre-gesture [a, b, c, d].
The claimed law — N undos restore the exact pre-sequence layer list for
entries pushed via `pushHistory` — is therefore false on this reachable
gesture; the undo algorithm itself satisfies the law exactly for
sequentially well-formed entries (`undo_redo_inverse`), so the slip is the
handler's stale recorded indices. -/
theorem undo_delete_stale_indices_bug :
    c1BugDoc0.layers.map (fun l => l.objects.map VectorObject.id) =
      [["a", "b", "c", "d"]] ∧
    c1BugDoc1.layers.map (fun l => l.objects.map VectorObject.id) =
      [["b", "d"]] ∧
    c1BugDoc1.undo.layers.map (fun l => l.objects.map VectorObject.id) =
      [["a", "b", "d", "c"]] ∧
    c1BugDoc1.undo.layers ≠ c1BugDoc0.layers := by
  refine ⟨rfl, rfl, rfl, ?_⟩
  intro h
  have hids := congrArg
    (List.map (fun l : VectorLayer => l.objects.map VectorObject.id)) h
  rw [show c1BugDoc1.undo.layers.map
      (fun l : VectorLayer => l.objects.map VectorObject.id) =
      [["a", "b", "d", "c"]] from rfl,
    show c1BugDoc0.layers.map
      (fun l : VectorLayer => l.objects.map VectorObject.id) =
      [["a", "b", "c", "d"]] from rfl] at hids
  exact absurd hids (by decide)
